import Mathlib

/-!
# GluGlu browser: a model of the Go sources and the properties of its specification

The Go packages `html`, `renderer`, `network`, `js` and `browser` are embedded as
pure Lean functions, one namespace per package, each function keeping the name it
has in the source.

Conventions of the embedding:

* A Go `string` is modelled by the list of its code points (`GoString`).  The
  sources only search for ASCII markers, cut at the positions found and compare
  whole strings, so on well-formed UTF-8 text the code points behave exactly as
  the bytes do.
* A Go runtime panic (slice or index out of range) is a value of `RuntimePanic`;
  a function that can panic returns `Except RuntimePanic _`.
* Go `int` is 64 bits wide.  Layout coordinates, which a style attribute can set
  to any 64-bit value, are computed with wrap-around (`wrapInt`).  String offsets
  and history positions are bounded by the size of the data in memory and are
  plain integers.
* What the sources obtain from outside the repository (the clock and the HTTP
  client, the otto VM, `strings.EqualFold`) is passed in as an explicit argument.
-/

namespace GluGlu

/-- A Go `string`, as the list of its code points. -/
abbrev GoString := List Char

/-- A Go runtime panic. -/
inductive RuntimePanic where
  /-- The panic `slice bounds out of range [lo:hi]` on a value of length `len`. -/
  | sliceOutOfRange (lo hi len : Int)
  /-- The panic `index out of range [i] with length len`. -/
  | indexOutOfRange (i len : Int)
deriving DecidableEq, Repr

/-- The `error` values the sources create or pass on. -/
inductive GoError where
  /-- The sentinel `http.ErrNoLocation`. -/
  | ErrNoLocation
  /-- The error wrapped by `Fetch` when `http.NewRequest` fails. -/
  | requestCreation (cause : GoString)
  /-- The error wrapped by `Fetch` when `client.Do` fails. -/
  | requestExecution (cause : GoString)
  /-- The error made by `Fetch` for a status other than 200. -/
  | badStatus (StatusCode : Int) (Status : GoString)
  /-- The error wrapped by `Fetch` when reading the body fails. -/
  | readBody (cause : GoString)
deriving DecidableEq, Repr

/-- Reduction of an integer to the range of a 64-bit Go `int`. -/
def wrapInt (z : Int) : Int := (z + 2 ^ 63) % 2 ^ 64 - 2 ^ 63

/-- The slice expression `s[lo:hi]` on a string or slice of length `s.length`. -/
def sliceExpr {α : Type} (s : List α) (lo hi : Int) : Except RuntimePanic (List α) :=
  if 0 ≤ lo ∧ lo ≤ hi ∧ hi ≤ (s.length : Int) then
    .ok ((s.drop lo.toNat).take (hi.toNat - lo.toNat))
  else
    .error (.sliceOutOfRange lo hi s.length)

/-- The slice expression `s[lo:]`. -/
def sliceFrom {α : Type} (s : List α) (lo : Int) : Except RuntimePanic (List α) :=
  sliceExpr s lo s.length

/-- The index expression `s[i]`. -/
def indexExpr {α : Type} (s : List α) (i : Int) : Except RuntimePanic α :=
  if 0 ≤ i then
    match s[i.toNat]? with
    | some a => .ok a
    | none => .error (.indexOutOfRange i s.length)
  else
    .error (.indexOutOfRange i s.length)

/-! ## Package `strings` (standard library, as far as the sources use it) -/

namespace strings

/-- Search loop of `Index`: `i` is the offset of `s` in the whole string. -/
def indexAux (substr : GoString) : GoString → Nat → Int
  | [], i => if substr.isPrefixOf [] then (i : Int) else -1
  | c :: cs, i => if substr.isPrefixOf (c :: cs) then (i : Int) else indexAux substr cs (i + 1)

/-- The function `strings.Index`: offset of the first occurrence of `substr` in `s`, or `-1`. -/
def Index (s substr : GoString) : Int := indexAux substr s 0

/-- The function `strings.Split` for a separator of one character. -/
def Split : GoString → Char → List GoString
  | [], _ => [[]]
  | c :: cs, sep =>
    if c = sep then [] :: Split cs sep
    else
      match Split cs sep with
      | [] => [[c]]
      | part :: parts => (c :: part) :: parts

/-- The predicate `unicode.IsSpace`. -/
def IsSpace (r : Char) : Bool :=
  let n := r.toNat
  (0x09 ≤ n && n ≤ 0x0d) || n = 0x20 || n = 0x85 || n = 0xa0 || n = 0x1680 ||
  (0x2000 ≤ n && n ≤ 0x200a) || n = 0x2028 || n = 0x2029 || n = 0x202f ||
  n = 0x205f || n = 0x3000

/-- The function `strings.TrimSpace`. -/
def TrimSpace (s : GoString) : GoString :=
  ((s.dropWhile IsSpace).reverse.dropWhile IsSpace).reverse

/-- The function `strings.HasSuffix`. -/
def HasSuffix (s suffix : GoString) : Bool := suffix.reverse.isPrefixOf s.reverse

/-- The function `strings.TrimSuffix`. -/
def TrimSuffix (s suffix : GoString) : GoString :=
  if HasSuffix s suffix then s.take (s.length - suffix.length) else s

end strings

/-! ## Package `fmt`: `Sscanf` with the format `"%d"` -/

namespace fmt

/-- The method `ss.SkipSpace` of the scanner behind `Sscanf` (newlines are not
space there): the rest of the input, or `none` for the error `unexpected newline`. -/
def SkipSpace : GoString → Option GoString
  | [] => some []
  | c :: cs =>
    if c = '\n' then none
    else if strings.IsSpace c then SkipSpace cs
    else some (c :: cs)

/-- Value of a string of decimal digits. -/
def digitsValue (token : GoString) : Nat :=
  token.foldl (fun acc c => 10 * acc + (c.toNat - 48)) 0

/-- The limit `hugeWid` on the number of characters a scan reads. -/
def hugeWid : Nat := 2 ^ 30

/-- The call `fmt.Sscanf(str, "%d", &v)` with `v` an `int`: `some n` when it
returns a nil error and stores `n`, `none` when it returns an error and leaves
`v` alone.  The scanner skips leading space, accepts one sign and then the longest
run of decimal digits, which `strconv.ParseInt` converts in 64 bits; input after
the number is not looked at. -/
def Sscanf_d (str : GoString) : Option Int :=
  match SkipSpace (str.take hugeWid) with
  | none => none
  | some rest =>
    let (neg, afterSign) :=
      match rest with
      | '+' :: t => (false, t)
      | '-' :: t => (true, t)
      | t => (false, t)
    let token := afterSign.takeWhile Char.isDigit
    match token with
    | [] => none
    | _ :: _ =>
      let v : Int := if neg then -(digitsValue token : Int) else (digitsValue token : Int)
      if -(2 ^ 63 : Int) ≤ v ∧ v < 2 ^ 63 then some v else none

end fmt

/-! ## Package `html` (`internal/browser/html/parser.go`) -/

namespace html

/-- The struct `Element`.  `Attributes` is the Go map as an association list; the
non-owning `Parent` pointer, which no function of the repository reads, is not
represented. -/
inductive Element where
  | mk (TagName : GoString) (Attributes : List (GoString × GoString))
      (Children : List Element) (Text : GoString) (ID : GoString)
      (ClassNames : List GoString)
deriving Repr

namespace Element

/-- Field `TagName`. -/
def TagName : Element → GoString
  | mk t _ _ _ _ _ => t

/-- Field `Attributes`. -/
def Attributes : Element → List (GoString × GoString)
  | mk _ a _ _ _ _ => a

/-- Field `Children`. -/
def Children : Element → List Element
  | mk _ _ c _ _ _ => c

/-- Field `Text`. -/
def Text : Element → GoString
  | mk _ _ _ x _ _ => x

/-- Field `ID`. -/
def ID : Element → GoString
  | mk _ _ _ _ i _ => i

/-- Field `ClassNames`. -/
def ClassNames : Element → List GoString
  | mk _ _ _ _ _ k => k

end Element

/-- The struct `Document`; a nil `Head` or `BodyElem` pointer is `none`. -/
structure Document where
  Title : GoString
  Body : GoString
  Elements : List Element
  Head : Option Element
  BodyElem : Option Element
deriving Repr

/-- The title given to a document without a title region. -/
def defaultTitle : GoString := "Без заголовка".toList

/-- Title region of `Parse` (source lines 46-53). -/
def parseTitle (htmlContent : GoString) : Except RuntimePanic GoString :=
  let titleStart := strings.Index htmlContent "<title>".toList
  let titleEnd := strings.Index htmlContent "</title>".toList
  if titleStart ≥ 0 ∧ titleEnd > titleStart then
    sliceExpr htmlContent (titleStart + 7) titleEnd
  else
    .ok defaultTitle

/-- Body region of `Parse` (source lines 55-67). -/
def parseBody (htmlContent : GoString) : Except RuntimePanic GoString :=
  let bodyStart := strings.Index htmlContent "<body".toList
  let bodyEnd := strings.Index htmlContent "</body>".toList
  if bodyStart ≥ 0 ∧ bodyEnd > bodyStart then
    match sliceFrom htmlContent bodyStart with
    | .error p => .error p
    | .ok tail =>
      let bodyTagEnd := strings.Index tail ">".toList
      if bodyTagEnd > 0 then
        sliceExpr htmlContent (bodyStart + bodyTagEnd + 1) bodyEnd
      else
        .ok []
  else
    .ok htmlContent

/-- The method `Parser.Parse`: the document and the returned `error` (always nil),
or the panic it raises. -/
def Parse (htmlContent : GoString) : Except RuntimePanic (Document × Option GoError) :=
  match parseTitle htmlContent with
  | .error p => .error p
  | .ok title =>
    match parseBody htmlContent with
    | .error p => .error p
    | .ok bodyText =>
      let head := Element.mk "head".toList [] [] [] [] []
      let body := Element.mk "body".toList [] [] bodyText [] []
      let html := Element.mk "html".toList [] [head, body] [] [] []
      .ok ({ Title := title, Body := bodyText, Elements := [html],
             Head := some head, BodyElem := some body }, none)

mutual
/-- The function `findElementsByTagNameRecursive`; `result` is the slice behind the pointer. -/
def findElementsByTagNameRecursive (EqualFold : GoString → GoString → Bool)
    (tagName : GoString) : Element → List Element → List Element
  | .mk t a c x i k, result =>
    findElementsByTagNameChildren EqualFold tagName c
      (if EqualFold t tagName then result ++ [.mk t a c x i k] else result)
/-- The loop of `findElementsByTagNameRecursive` over the children. -/
def findElementsByTagNameChildren (EqualFold : GoString → GoString → Bool)
    (tagName : GoString) : List Element → List Element → List Element
  | [], result => result
  | child :: rest, result =>
    findElementsByTagNameChildren EqualFold tagName rest
      (findElementsByTagNameRecursive EqualFold tagName child result)
end

/-- The method `Document.FindElementsByTagName`. -/
def FindElementsByTagName (EqualFold : GoString → GoString → Bool) (d : Document)
    (tagName : GoString) : List Element :=
  d.Elements.foldl (fun result element =>
    findElementsByTagNameRecursive EqualFold tagName element result) []

mutual
/-- The function `findElementByIDRecursive`; a nil result is `none`. -/
def findElementByIDRecursive (id : GoString) : Element → Option Element
  | .mk t a c x i k =>
    if i = id then some (.mk t a c x i k) else findElementByIDChildren id c
/-- The loop of `findElementByIDRecursive` over the children. -/
def findElementByIDChildren (id : GoString) : List Element → Option Element
  | [] => none
  | child :: rest =>
    match findElementByIDRecursive id child with
    | some found => some found
    | none => findElementByIDChildren id rest
end

/-- The method `Document.FindElementsByID` (its loop over the top-level elements). -/
def FindElementsByID (d : Document) (id : GoString) : Option Element :=
  let rec loop : List Element → Option Element
    | [] => none
    | element :: rest =>
      match findElementByIDRecursive id element with
      | some found => some found
      | none => loop rest
  loop d.Elements

mutual
/-- Document order of the subtree of an element: the element, then the subtrees of
its children from left to right. -/
def preOrder : Element → List Element
  | .mk t a c x i k => .mk t a c x i k :: preOrderAll c
/-- Document order of a sequence of subtrees. -/
def preOrderAll : List Element → List Element
  | [] => []
  | e :: es => preOrder e ++ preOrderAll es
end

/-- The entries of a Go map kept as an association list: one pair for each key,
with the value the map holds for it. -/
def mapEntries (m : List (GoString × GoString)) : List (GoString × GoString) :=
  (m.map Prod.fst).dedup.filterMap (fun key => (m.lookup key).map (fun value => (key, value)))

/-- The double quote character. -/
def quote : Char := Char.ofNat 34

/-- The text of one attribute in `GetInnerHTML`: a blank, the key, `=`, and the value
between double quotes. -/
def attributeText (kv : GoString × GoString) : GoString :=
  " ".toList ++ kv.1 ++ ['=', quote] ++ kv.2 ++ [quote]

mutual
/-- The method `Element.GetInnerHTML`: all the strings it can return.  The loop over
the attribute map of a child runs in an order that Go leaves open; every order of the
entries gives one result. -/
def GetInnerHTML : Element → List GoString
  | .mk _ _ c x _ _ => (getInnerHTMLChildren c).map (fun rest => x ++ rest)
/-- The loop of `GetInnerHTML` over the children: all the strings it can write. -/
def getInnerHTMLChildren : List Element → List GoString
  | [] => [[]]
  | child :: rest =>
    (mapEntries child.Attributes).permutations'.flatMap fun order =>
      (GetInnerHTML child).flatMap fun inner =>
        (getInnerHTMLChildren rest).map fun tail =>
          ("<".toList ++ child.TagName ++ order.flatMap attributeText ++ ">".toList
            ++ inner ++ "</".toList ++ child.TagName ++ ">".toList) ++ tail
end

end html

/-! ## Package `renderer` (`internal/browser/renderer/renderer.go`) -/

namespace renderer

/-- The struct `RenderedElement`. -/
inductive RenderedElement where
  | mk (TagName : GoString) (Text : GoString) (X Y Width Height : Int)
      (Color Background : GoString) (Children : List RenderedElement)
deriving Repr

namespace RenderedElement

/-- Field `TagName`. -/
def TagName : RenderedElement → GoString
  | mk t _ _ _ _ _ _ _ _ => t

/-- Field `Text`. -/
def Text : RenderedElement → GoString
  | mk _ t _ _ _ _ _ _ _ => t

/-- Field `X`. -/
def X : RenderedElement → Int
  | mk _ _ x _ _ _ _ _ _ => x

/-- Field `Y`. -/
def Y : RenderedElement → Int
  | mk _ _ _ y _ _ _ _ _ => y

/-- Field `Width`. -/
def Width : RenderedElement → Int
  | mk _ _ _ _ w _ _ _ _ => w

/-- Field `Height`. -/
def Height : RenderedElement → Int
  | mk _ _ _ _ _ h _ _ _ => h

/-- Field `Color`. -/
def Color : RenderedElement → GoString
  | mk _ _ _ _ _ _ c _ _ => c

/-- Field `Background`. -/
def Background : RenderedElement → GoString
  | mk _ _ _ _ _ _ _ b _ => b

/-- Field `Children`. -/
def Children : RenderedElement → List RenderedElement
  | mk _ _ _ _ _ _ _ _ cs => cs

/-- Assignment `element.Color = v`. -/
def setColor : RenderedElement → GoString → RenderedElement
  | mk t txt x y w h _ b cs, v => mk t txt x y w h v b cs

/-- Assignment `element.Background = v`. -/
def setBackground : RenderedElement → GoString → RenderedElement
  | mk t txt x y w h c _ cs, v => mk t txt x y w h c v cs

/-- Assignment `element.Width = v`. -/
def setWidth : RenderedElement → Int → RenderedElement
  | mk t txt x y _ h c b cs, v => mk t txt x y v h c b cs

/-- Assignment `element.Height = v`. -/
def setHeight : RenderedElement → Int → RenderedElement
  | mk t txt x y w _ c b cs, v => mk t txt x y w v c b cs

/-- Assignment `element.Children = v`. -/
def setChildren : RenderedElement → List RenderedElement → RenderedElement
  | mk t txt x y w h c b _, v => mk t txt x y w h c b v

end RenderedElement

/-- The struct `Document` of the renderer. -/
structure Document where
  Title : GoString
  Elements : List RenderedElement
  Width : Int
  Height : Int
deriving Repr

/-- Body of the loop of `applyStyles` for one declaration `style`. -/
def applyStyle (element : RenderedElement) (style : GoString) : RenderedElement :=
  match strings.Split style ':' with
  | [part0, part1] =>
    let name := strings.TrimSpace part0
    let value := strings.TrimSpace part1
    if name = "color".toList then element.setColor value
    else if name = "background-color".toList then element.setBackground value
    else if name = "width".toList then
      if strings.HasSuffix value "px".toList then
        match fmt.Sscanf_d (strings.TrimSuffix value "px".toList) with
        | some width => element.setWidth width
        | none => element
      else element
    else if name = "height".toList then
      if strings.HasSuffix value "px".toList then
        match fmt.Sscanf_d (strings.TrimSuffix value "px".toList) with
        | some height => element.setHeight height
        | none => element
      else element
    else element
  | _ => element

/-- The method `Renderer.applyStyles`. -/
def applyStyles (element : RenderedElement) (styleStr : GoString) : RenderedElement :=
  (strings.Split styleStr ';').foldl applyStyle element

mutual
/-- The method `Renderer.renderElement`. -/
def renderElement : html.Element → Int → Int → RenderedElement
  | .mk t a c txt _ _, x, y =>
    let renderedElement :=
      RenderedElement.mk t txt x y 100 20 "#000000".toList "#FFFFFF".toList []
    let renderedElement :=
      match a.lookup "style".toList with
      | some style => applyStyles renderedElement style
      | none => renderedElement
    let renderedElement := renderedElement.setChildren
      (renderedElement.Children ++ renderChildren c (wrapInt (x + 10)) y renderedElement.Height)
    match renderedElement.Children.getLast? with
    | some lastChild =>
      renderedElement.setHeight (wrapInt (wrapInt (lastChild.Y - y) + lastChild.Height))
    | none => renderedElement
/-- The loop of `renderElement` over the children: `childX` is `x+10`, `currentY`
the running offset and `height` the parent's `Height` during the loop. -/
def renderChildren : List html.Element → Int → Int → Int → List RenderedElement
  | [], _, _, _ => []
  | child :: rest, childX, currentY, height =>
    let childElement := renderElement child childX (wrapInt (currentY + height))
    childElement :: renderChildren rest childX (wrapInt (currentY + childElement.Height)) height
end

/-- The method `Renderer.Render`. -/
def Render (doc : html.Document) : Document :=
  { Title := doc.Title
    Elements := doc.Elements.map (fun element => renderElement element 0 0)
    Width := 800
    Height := 600 }

/-- The box of `renderElement` before the children are rendered (source lines 65-80):
the defaults, then the inline style if the element has a `style` attribute. -/
def styledBox (element : html.Element) (x y : Int) : RenderedElement :=
  let renderedElement :=
    RenderedElement.mk element.TagName element.Text x y 100 20
      "#000000".toList "#FFFFFF".toList []
  match element.Attributes.lookup "style".toList with
  | some style => applyStyles renderedElement style
  | none => renderedElement

/-- The height an element's own box has after its inline style is applied: the
`Height` of `styledBox`, in which the position plays no part. -/
def styledHeight (element : html.Element) : Int := (styledBox element 0 0).Height

mutual
/-- All boxes of a box tree: the box itself and the boxes of its children's trees. -/
def boxes : RenderedElement → List RenderedElement
  | .mk t txt x y w h c b cs => .mk t txt x y w h c b cs :: boxesAll cs
/-- All boxes of a sequence of box trees. -/
def boxesAll : List RenderedElement → List RenderedElement
  | [] => []
  | r :: rs => boxes r ++ boxesAll rs
end

end renderer

/-! ## Package `network` (`internal/browser/network/manager.go`) -/

namespace network

/-- The struct `CacheEntry`; a `time.Time` is a number of nanoseconds. -/
structure CacheEntry where
  Content : GoString
  Timestamp : Int
  Headers : List (GoString × List GoString)
deriving DecidableEq, Repr

/-- The struct `Manager`: its cache map as an association list (the HTTP client
it holds is configuration only). -/
structure Manager where
  cache : List (GoString × CacheEntry)
deriving DecidableEq, Repr

/-- What the HTTP client does with the request of one `Fetch`. -/
inductive HttpOutcome where
  /-- The call `http.NewRequest` returns an error. -/
  | newRequestFails (cause : GoString)
  /-- The call `client.Do` returns an error. -/
  | doFails (cause : GoString)
  /-- A response arrives; `body` is the result of `ioutil.ReadAll`. -/
  | response (StatusCode : Int) (Status : GoString)
      (Header : List (GoString × List GoString)) (body : Except GoString GoString)

/-- The surroundings of one call of `Fetch`: the clock when the cache is looked
up, what the HTTP client does if it is asked, the clock when the entry is stored. -/
structure FetchEnv where
  now : Int
  http : HttpOutcome
  storeTime : Int

/-- The duration `5*time.Minute`, in nanoseconds. -/
def cacheTTL : Int := 5 * 60 * 1000000000

/-- The assignment `m[key] = value` on a map. -/
def mapSet {β : Type} (m : List (GoString × β)) (key : GoString) (value : β) :
    List (GoString × β) :=
  (key, value) :: m.filter (fun kv => kv.1 ≠ key)

/-- The function `NewManager`. -/
def NewManager : Manager := { cache := [] }

/-- The request part of `Fetch`, after a cache miss (source lines 55-93). -/
def fetchRemote (m : Manager) (url : GoString) (env : FetchEnv) :
    Except GoError GoString × Manager :=
  match env.http with
  | .newRequestFails cause => (.error (.requestCreation cause), m)
  | .doFails cause => (.error (.requestExecution cause), m)
  | .response StatusCode Status Header body =>
    if StatusCode ≠ 200 then (.error (.badStatus StatusCode Status), m)
    else
      match body with
      | .error cause => (.error (.readBody cause), m)
      | .ok content =>
        (.ok content,
          { cache := mapSet m.cache url
              { Content := content, Timestamp := env.storeTime, Headers := Header } })

/-- The method `Manager.Fetch`: the returned pair and the manager afterwards. -/
def Fetch (m : Manager) (url : GoString) (env : FetchEnv) :
    Except GoError GoString × Manager :=
  match m.cache.lookup url with
  | some entry =>
    if env.now - entry.Timestamp < cacheTTL then (.ok entry.Content, m)
    else fetchRemote m url env
  | none => fetchRemote m url env

/-- The method `Manager.ClearCache`. -/
def ClearCache (_m : Manager) : Manager := { cache := [] }

end network

/-- What the repository takes from outside: `strings.EqualFold` and the otto VM
of the script engine, whose states are the values of `V`. -/
structure Host (V : Type) where
  /-- The function `strings.EqualFold`. -/
  EqualFold : GoString → GoString → Bool
  /-- The VM made by `otto.New()`. -/
  vmNew : V
  /-- Effect of `setupDocumentObject` on the VM. -/
  vmSetup : V → html.Document → V
  /-- Effect of `vm.Run(text)` on the VM and, through the bridge, on the document. -/
  vmRun : V → html.Document → GoString → V × html.Document

/-! ## Package `js` (`internal/browser/js/engine.go`) -/

namespace js

/-- Body of the loop of `Execute` for one script of the list taken before the loop
(the element is the copy made then, with the attributes and text it had). -/
def executeScript {V : Type} (host : Host V) (state : V × html.Document)
    (script : html.Element) : V × html.Document :=
  let external : Bool :=
    match script.Attributes.lookup "src".toList with
    | some src => decide (src ≠ [])
    | none => false
  if external then state
  else if script.Text ≠ [] then host.vmRun state.1 state.2 script.Text
  else state

/-- The method `Engine.Execute`: the VM and the document afterwards. -/
def Execute {V : Type} (host : Host V) (vm : V) (doc : html.Document) :
    V × html.Document :=
  let scripts := html.FindElementsByTagName host.EqualFold doc "script".toList
  let vm := host.vmSetup vm doc
  scripts.foldl (executeScript host) (vm, doc)

/-- The script texts the loop of `Execute` passes to `vm.Run`, in order: the texts of
the `script` elements found that are not external (no `src` attribute, or an empty
one) and have a text. -/
def scriptsRun {V : Type} (host : Host V) (doc : html.Document) : List GoString :=
  (html.FindElementsByTagName host.EqualFold doc "script".toList).filterMap (fun script =>
    let external : Bool :=
      match script.Attributes.lookup "src".toList with
      | some src => decide (src ≠ [])
      | none => false
    if external then none
    else if script.Text ≠ [] then some script.Text
    else none)

end js

/-! ## Pointers into the document: `FindElementsByID` and the `setAttribute` of the bridge -/

namespace html

/-- Where the `*Element` returned by `FindElementsByID` points.  The loop
`for _, element := range d.Elements` copies each top-level element into its loop
variable and searches from the address of that variable: a match on the top-level
element itself is a pointer to the copy (`loopCopy`, with the index of the element
copied); a match below it is reached through `&element.Children[i]`, in the array the
copy shares with the document, and points into the document (`inTree`, with the
indices leading to the element: top-level index, then child indices). -/
inductive ElementRef where
  | loopCopy (index : Nat)
  | inTree (path : List Nat)
deriving DecidableEq, Repr

mutual
/-- The function `findElementByIDRecursive` with its result as a pointer: the child
indices leading from `element` to the element found (none for `element` itself). -/
def findElementByIDPath (id : GoString) : Element → Option (List Nat)
  | .mk _ _ c _ i _ => if i = id then some [] else findElementByIDPathChildren id c 0
/-- The loop of `findElementByIDRecursive` over the children, from index `n` on. -/
def findElementByIDPathChildren (id : GoString) : List Element → Nat → Option (List Nat)
  | [], _ => none
  | child :: rest, n =>
    match findElementByIDPath id child with
    | some path => some (n :: path)
    | none => findElementByIDPathChildren id rest (n + 1)
end

/-- The loop of `FindElementsByID` over the top-level elements, from index `n` on,
with its result as a pointer. -/
def findElementsByIDRefLoop (id : GoString) : List Element → Nat → Option ElementRef
  | [], _ => none
  | element :: rest, n =>
    match findElementByIDPath id element with
    | some [] => some (.loopCopy n)
    | some (j :: path) => some (.inTree (n :: j :: path))
    | none => findElementsByIDRefLoop id rest (n + 1)

/-- The method `Document.FindElementsByID` with its result as a pointer. -/
def FindElementsByIDRef (d : Document) (id : GoString) : Option ElementRef :=
  findElementsByIDRefLoop id d.Elements 0

/-- The element reached from `element` through the child indices `path`. -/
def subElement : List Nat → Element → Option Element
  | [], element => some element
  | n :: path, element =>
    match element.Children[n]? with
    | some child => subElement path child
    | none => none

/-- The element a pointer points to: for `loopCopy`, the value copied. -/
def deref (d : Document) : ElementRef → Option Element
  | .loopCopy n => d.Elements[n]?
  | .inTree [] => none
  | .inTree (n :: path) =>
    match d.Elements[n]? with
    | some element => subElement path element
    | none => none

/-- The elements `es` with `f` applied to the one the indices `path` lead to. -/
def modifyAt (f : Element → Element) : List Nat → List Element → List Element
  | [], es => es
  | [n], es => es.modify f n
  | n :: m :: path, es =>
    es.modify (fun element =>
      match element with
      | .mk t a c x i k => .mk t a (modifyAt f (m :: path) c) x i k) n

namespace Element

/-- The assignment `element.Attributes[name] = value`. -/
def setAttribute : Element → GoString → GoString → Element
  | mk t a c x i k, name, value => mk t (network.mapSet a name value) c x i k

/-- The assignment `element.ID = value`. -/
def setID : Element → GoString → Element
  | mk t a c x _ k, value => mk t a c x value k

end Element

end html

namespace js

/-- The `setAttribute` closure of the proxy that `getElementById` returns, acting on
the document through the pointer `ref` it has captured (attribute maps are not nil,
as `Parse` and `createElement` make them).  The assignment to the attribute map
reaches the document also through a copy of the element, since a copy shares the
map; the assignment `element.ID = value` reaches the document only when the pointer
points into it.  The cached `Head` and `BodyElem` are left aside. -/
def setAttribute (d : html.Document) (ref : html.ElementRef) (name value : GoString) :
    html.Document :=
  match ref with
  | .loopCopy n =>
    { d with Elements :=
        html.modifyAt (fun element => element.setAttribute name value) [n] d.Elements }
  | .inTree path =>
    { d with Elements :=
        html.modifyAt (fun element =>
          if name = "id".toList then (element.setAttribute name value).setID value
          else element.setAttribute name value) path d.Elements }

end js

/-! ## Package `browser` (`internal/browser/browser.go`) -/

namespace browser

/-- The struct `Page`. -/
structure Page where
  URL : GoString
  Title : GoString
  Content : GoString
  DOM : html.Document
  RenderedDocument : renderer.Document

/-- The struct `Browser`: the network manager, the VM of the script engine and
the navigation fields (parser and renderer hold no data; a nil `currentPage` is
`none`). -/
structure Browser (V : Type) where
  networkManager : network.Manager
  jsEngine : V
  currentURL : GoString
  currentPage : Option Page
  history : List GoString
  historyPos : Int

/-- How a call of a method returning `error` ends. -/
inductive GoResult where
  /-- It returns nil. -/
  | nil
  /-- It returns the error `e`. -/
  | err (e : GoError)
  /-- It panics. -/
  | panic (p : RuntimePanic)
deriving DecidableEq, Repr

/-- The function `NewBrowser`. -/
def NewBrowser {V : Type} (host : Host V) : Browser V :=
  { networkManager := network.NewManager
    jsEngine := host.vmNew
    currentURL := []
    currentPage := none
    history := []
    historyPos := -1 }

/-- Commit of `LoadURL` (source lines 91-103) once the page is built. -/
def commit {V : Type} (b : Browser V) (url : GoString) (page : Page) :
    GoResult × Browser V :=
  let b := { b with currentURL := url, currentPage := some page }
  let truncated : Except RuntimePanic (List GoString) :=
    if b.historyPos < (b.history.length : Int) - 1 then
      sliceExpr b.history 0 (b.historyPos + 1)
    else .ok b.history
  match truncated with
  | .error p => (.panic p, b)
  | .ok history =>
    let history := history ++ [url]
    (.nil, { b with history := history, historyPos := (history.length : Int) - 1 })

/-- The method `Browser.LoadURL`: how the call ends and the browser afterwards. -/
def LoadURL {V : Type} (host : Host V) (b : Browser V) (url : GoString)
    (env : network.FetchEnv) : GoResult × Browser V :=
  match network.Fetch b.networkManager url env with
  | (.error err, manager) => (.err err, { b with networkManager := manager })
  | (.ok content, manager) =>
    let b := { b with networkManager := manager }
    match html.Parse content with
    | .error p => (.panic p, b)
    | .ok (_, some err) => (.err err, b)
    | .ok (doc, none) =>
      let (vm, doc) := js.Execute host b.jsEngine doc
      let b := { b with jsEngine := vm }
      let renderedDoc := renderer.Render doc
      let page : Page :=
        { URL := url, Title := doc.Title, Content := content, DOM := doc,
          RenderedDocument := renderedDoc }
      commit b url page

/-- The method `Browser.GetCurrentPage`. -/
def GetCurrentPage {V : Type} (b : Browser V) : Option Page := b.currentPage

/-- The method `Browser.GoBack`. -/
def GoBack {V : Type} (host : Host V) (b : Browser V) (env : network.FetchEnv) :
    GoResult × Browser V :=
  if b.historyPos ≤ 0 then (.err .ErrNoLocation, b)
  else
    let b := { b with historyPos := b.historyPos - 1 }
    match indexExpr b.history b.historyPos with
    | .error p => (.panic p, b)
    | .ok url => LoadURL host b url env

/-- The method `Browser.GoForward`. -/
def GoForward {V : Type} (host : Host V) (b : Browser V) (env : network.FetchEnv) :
    GoResult × Browser V :=
  if b.historyPos ≥ (b.history.length : Int) - 1 then (.err .ErrNoLocation, b)
  else
    let b := { b with historyPos := b.historyPos + 1 }
    match indexExpr b.history b.historyPos with
    | .error p => (.panic p, b)
    | .ok url => LoadURL host b url env

/-- The method `Browser.CanGoBack`. -/
def CanGoBack {V : Type} (b : Browser V) : Bool := decide (b.historyPos > 0)

/-- The method `Browser.CanGoForward`. -/
def CanGoForward {V : Type} (b : Browser V) : Bool :=
  decide (b.historyPos < (b.history.length : Int) - 1)

/-- The bounds the specification puts on the history position. -/
def historyInv {V : Type} (b : Browser V) : Prop :=
  -1 ≤ b.historyPos ∧ b.historyPos ≤ (b.history.length : Int) - 1

/-- One call of the session API that can change the session. -/
inductive Call where
  | LoadURL (url : GoString)
  | GoBack
  | GoForward

/-- One call, made in the surroundings `env`. -/
def step {V : Type} (host : Host V) (b : Browser V) (call : Call × network.FetchEnv) :
    GoResult × Browser V :=
  match call.1 with
  | .LoadURL url => LoadURL host b url call.2
  | .GoBack => GoBack host b call.2
  | .GoForward => GoForward host b call.2

/-- The session after a sequence of calls, however each of them ends. -/
def run {V : Type} (host : Host V) (b : Browser V) :
    List (Call × network.FetchEnv) → Browser V
  | [] => b
  | call :: calls => run host (step host b call).2 calls

end browser

/-! ## Concrete surroundings used to evaluate the model -/

namespace sample

/-- A host whose VM has a single state and runs scripts without effect;
`EqualFold` compares after ASCII lower-casing. -/
def plainHost : Host Unit :=
  { EqualFold := fun s t => s.map Char.toLower == t.map Char.toLower
    vmNew := ()
    vmSetup := fun _ _ => ()
    vmRun := fun vm doc _ => (vm, doc) }

/-- Surroundings in which the server answers 200 with `body` at time `t`. -/
def okEnv (t : Int) (body : GoString) : network.FetchEnv :=
  { now := t, http := .response 200 "200 OK".toList [] (.ok body), storeTime := t }

/-- Surroundings in which the request fails at time `t`. -/
def downEnv (t : Int) : network.FetchEnv :=
  { now := t, http := .doFails "connection refused".toList, storeTime := t }

/-- The call `LoadURL(url)` answered 200 with an empty body at time 0. -/
def loadOk (url : GoString) : browser.Call × network.FetchEnv :=
  (.LoadURL url, okEnv 0 [])

/-- The call `GoBack()` at time 0 with a server that answers. -/
def backOk : browser.Call × network.FetchEnv := (.GoBack, okEnv 0 [])

/-- A fresh session of `plainHost` after the given calls. -/
def session (calls : List (browser.Call × network.FetchEnv)) : browser.Browser Unit :=
  browser.run plainHost (browser.NewBrowser plainHost) calls

/-- A time at which every cache entry stored at time 0 has expired. -/
def later : Int := 1000000000000

/-- A document with a duplicate id: `<div id=x><p id=y/><span id=x/></div><b id=y/>`. -/
def duplicateIds : html.Document :=
  { Title := []
    Body := []
    Elements :=
      [.mk "div".toList [] [.mk "p".toList [] [] [] "y".toList [],
                            .mk "span".toList [] [] [] "x".toList []] [] "x".toList [],
       .mk "b".toList [] [] [] "y".toList []]
    Head := none
    BodyElem := none }

/-- A `div` of height 30 with two `p` children, the first with a child of its own,
the second styled. -/
def styledDiv : html.Element :=
  .mk "div".toList [("style".toList, "height:30px".toList)]
    [.mk "p".toList [] [.mk "b".toList [] [] [] [] []] [] [] [],
     .mk "p".toList [("style".toList, "color:red;width:50px".toList)] [] [] [] []] [] [] []

/-- A `div` of height `2^63 - 1` with two plain `p` children. -/
def tallDiv : html.Element :=
  .mk "div".toList [("style".toList, "height:9223372036854775807px".toList)]
    [.mk "p".toList [] [] [] [] [], .mk "p".toList [] [] [] [] []] [] [] []

/-- A childless `p` whose style sets a height of 50. -/
def tallParagraph : html.Element :=
  .mk "p".toList [("style".toList, "height:50px".toList)] [] "text".toList [] []

/-- A `div` with one child `a` that has two attributes and the text `x`. -/
def linkDiv : html.Element :=
  .mk "div".toList [] [.mk "a".toList [("href".toList, "u".toList), ("id".toList, "l".toList)]
    [] "x".toList "l".toList []] "see ".toList [] []

/-- The document `Parse` returns on the empty input. -/
def emptyPage : html.Document :=
  { Title := html.defaultTitle
    Body := []
    Elements := [.mk "html".toList []
      [.mk "head".toList [] [] [] [] [], .mk "body".toList [] [] [] [] []] [] [] []]
    Head := some (.mk "head".toList [] [] [] [] [])
    BodyElem := some (.mk "body".toList [] [] [] [] []) }

/-- The document `Parse` returns on
`<html><body><script>alert(1)</script></body></html>`: the script is text of `body`. -/
def scriptPage : html.Document :=
  { Title := html.defaultTitle
    Body := "<script>alert(1)</script>".toList
    Elements := [.mk "html".toList []
      [.mk "head".toList [] [] [] [] [],
       .mk "body".toList [] [] "<script>alert(1)</script>".toList [] []] [] [] []]
    Head := some (.mk "head".toList [] [] [] [] [])
    BodyElem := some (.mk "body".toList [] [] "<script>alert(1)</script>".toList [] []) }

/-- A `div` of height `2^63 - 1` whose one child `p` has a child `b`. -/
def tallNest : html.Element :=
  .mk "div".toList [("style".toList, "height:9223372036854775807px".toList)]
    [.mk "p".toList [] [.mk "b".toList [] [] [] [] []] [] [] []] [] [] []

end sample

/-! ## Lemmas on the network manager and the session -/

namespace browser

theorem fetchRemote_error_manager (m : network.Manager) (url : GoString)
    (env : network.FetchEnv) (err : GoError)
    (h : (network.fetchRemote m url env).1 = .error err) :
    (network.fetchRemote m url env).2 = m := by
  obtain ⟨now, http, st⟩ := env
  cases http with
  | newRequestFails cause => rfl
  | doFails cause => rfl
  | response code status header body =>
    by_cases hc : code = 200
    · cases body with
      | error cause => simp [network.fetchRemote, hc]
      | ok content => simp [network.fetchRemote, hc] at h
    · simp [network.fetchRemote, hc]

theorem Fetch_error_manager (m : network.Manager) (url : GoString) (env : network.FetchEnv)
    (err : GoError) (h : (network.Fetch m url env).1 = .error err) :
    (network.Fetch m url env).2 = m := by
  unfold network.Fetch at h ⊢
  cases hl : m.cache.lookup url with
  | none =>
    simp only [hl] at h ⊢
    exact fetchRemote_error_manager m url env err h
  | some entry =>
    simp only [hl] at h ⊢
    by_cases hlt : env.now - entry.Timestamp < network.cacheTTL
    · simp [hlt]
    · simp only [hlt, if_false] at h ⊢
      exact fetchRemote_error_manager m url env err h

theorem LoadURL_of_fetch_error {V : Type} (host : Host V) (b : Browser V) (url : GoString)
    (env : network.FetchEnv) (err : GoError)
    (h : (network.Fetch b.networkManager url env).1 = .error err) :
    LoadURL host b url env = (.err err, b) := by
  have hm := Fetch_error_manager _ _ _ _ h
  unfold LoadURL
  generalize network.Fetch b.networkManager url env = r at h hm
  obtain ⟨r1, r2⟩ := r
  simp only at h hm
  subst h hm
  rfl

theorem Parse_error_nil (content : GoString) (r : html.Document × Option GoError)
    (h : html.Parse content = .ok r) : r.2 = none := by
  unfold html.Parse at h
  cases ht : html.parseTitle content with
  | error p => simp [ht] at h
  | ok title =>
    cases hb : html.parseBody content with
    | error p => simp [ht, hb] at h
    | ok bodyText =>
      simp only [ht, hb] at h
      cases h
      rfl

theorem sliceExpr_zero {α : Type} (s : List α) (hi : Int) (h0 : 0 ≤ hi)
    (h1 : hi ≤ (s.length : Int)) : sliceExpr s 0 hi = .ok (s.take hi.toNat) := by
  unfold sliceExpr
  rw [if_pos ⟨le_refl _, h0, h1⟩]
  simp

theorem commit_cases {V : Type} (b : Browser V) (url : GoString) (page : Page) :
    ((commit b url page).1 ≠ .nil ∧ (commit b url page).2.history = b.history ∧
      (commit b url page).2.historyPos = b.historyPos ∧ b.historyPos < -1) ∨
    (-1 ≤ b.historyPos ∧
      commit b url page = (.nil,
        { b with currentURL := url, currentPage := some page,
                 history := b.history.take (b.historyPos + 1).toNat ++ [url],
                 historyPos :=
                  ((b.history.take (b.historyPos + 1).toNat ++ [url]).length : Int) - 1 })) := by
  unfold commit
  by_cases hlt : b.historyPos < (b.history.length : Int) - 1
  · by_cases h0 : 0 ≤ b.historyPos + 1
    · right
      refine ⟨by omega, ?_⟩
      simp only [hlt, if_true]
      rw [sliceExpr_zero _ _ h0 (by omega)]
    · left
      have : sliceExpr b.history 0 (b.historyPos + 1)
          = .error (.sliceOutOfRange 0 (b.historyPos + 1) b.history.length) := by
        unfold sliceExpr
        rw [if_neg]
        rintro ⟨-, h, -⟩
        exact h0 h
      simp only [hlt, if_true, this]
      exact ⟨by simp, trivial, trivial, by omega⟩
  · right
    refine ⟨by omega, ?_⟩
    simp only [hlt, if_false]
    have : b.history.take (b.historyPos + 1).toNat = b.history := by
      apply List.take_of_length_le
      omega
    rw [this]

theorem LoadURL_cases {V : Type} (host : Host V) (b : Browser V) (url : GoString)
    (env : network.FetchEnv) :
    ((LoadURL host b url env).1 ≠ .nil ∧
      (LoadURL host b url env).2.history = b.history ∧
      (LoadURL host b url env).2.historyPos = b.historyPos) ∨
    ((LoadURL host b url env).1 = .nil ∧ -1 ≤ b.historyPos ∧
      (LoadURL host b url env).2.history
        = b.history.take (b.historyPos + 1).toNat ++ [url] ∧
      (LoadURL host b url env).2.historyPos
        = ((LoadURL host b url env).2.history.length : Int) - 1 ∧
      (LoadURL host b url env).2.currentURL = url ∧
      (LoadURL host b url env).2.currentPage.map (fun p => p.URL) = some url ∧
      ∃ content, (network.Fetch b.networkManager url env).1 = .ok content ∧
        ∃ doc, html.Parse content = .ok (doc, none)) := by
  unfold LoadURL
  rcases hf : network.Fetch b.networkManager url env with ⟨r, m⟩
  cases r with
  | error err => left; simp
  | ok content =>
    simp only
    cases hp : html.Parse content with
    | error p => left; simp
    | ok r =>
      obtain ⟨doc, e⟩ := r
      have he := Parse_error_nil _ _ hp
      simp only at he
      subst he
      simp only
      rcases commit_cases
        ({ b with networkManager := m, jsEngine := (js.Execute host b.jsEngine doc).1 })
        url
        { URL := url, Title := (js.Execute host b.jsEngine doc).2.Title, Content := content,
          DOM := (js.Execute host b.jsEngine doc).2,
          RenderedDocument := renderer.Render (js.Execute host b.jsEngine doc).2 }
        with h | ⟨h0, h⟩
      · left
        exact ⟨h.1, h.2.1, h.2.2.1⟩
      · right
        rw [h]
        exact ⟨rfl, h0, rfl, rfl, rfl, rfl, content, rfl, doc, hp⟩

theorem LoadURL_success {V : Type} (host : Host V) (b : Browser V) (url : GoString)
    (env : network.FetchEnv) (content : GoString) (r : html.Document × Option GoError)
    (hf : (network.Fetch b.networkManager url env).1 = .ok content)
    (hp : html.Parse content = .ok r) (h0 : -1 ≤ b.historyPos) :
    (LoadURL host b url env).1 = .nil := by
  have he := Parse_error_nil _ _ hp
  obtain ⟨doc, e⟩ := r
  simp only at he
  subst he
  unfold LoadURL
  rcases hf2 : network.Fetch b.networkManager url env with ⟨r, m⟩
  rw [hf2] at hf
  simp only at hf
  subst hf
  simp only [hp]
  rcases commit_cases
    ({ b with networkManager := m, jsEngine := (js.Execute host b.jsEngine doc).1 })
    url
    { URL := url, Title := (js.Execute host b.jsEngine doc).2.Title, Content := content,
      DOM := (js.Execute host b.jsEngine doc).2,
      RenderedDocument := renderer.Render (js.Execute host b.jsEngine doc).2 }
    with h | ⟨_, h⟩
  · exfalso
    have := h.2.2.2
    simp only at this
    omega
  · rw [h]

theorem indexExpr_ok {α : Type} (s : List α) (i : Int) (a : α) :
    indexExpr s i = .ok a ↔ 0 ≤ i ∧ s[i.toNat]? = some a := by
  unfold indexExpr
  by_cases h : 0 ≤ i
  · simp only [h, if_true, true_and]
    cases hg : s[i.toNat]? with
    | none => simp
    | some x => simp
  · simp [h]

theorem indexExpr_inbounds {α : Type} (s : List α) (i : Int) (h0 : 0 ≤ i)
    (h1 : i < (s.length : Int)) : ∃ a, indexExpr s i = .ok a := by
  have hlt : i.toNat < s.length := by omega
  refine ⟨s[i.toNat], ?_⟩
  rw [indexExpr_ok]
  exact ⟨h0, List.getElem?_eq_getElem hlt⟩

theorem GoBack_inbounds {V : Type} (host : Host V) (b : Browser V) (env : network.FetchEnv)
    (url : GoString) (h0 : 0 < b.historyPos)
    (hu : indexExpr b.history (b.historyPos - 1) = .ok url) :
    GoBack host b env = LoadURL host { b with historyPos := b.historyPos - 1 } url env := by
  unfold GoBack
  rw [if_neg (by omega)]
  simp only [hu]

theorem GoForward_inbounds {V : Type} (host : Host V) (b : Browser V)
    (env : network.FetchEnv) (url : GoString)
    (h0 : b.historyPos < (b.history.length : Int) - 1)
    (hu : indexExpr b.history (b.historyPos + 1) = .ok url) :
    GoForward host b env = LoadURL host { b with historyPos := b.historyPos + 1 } url env := by
  unfold GoForward
  rw [if_neg (by omega)]
  simp only [hu]

theorem LoadURL_nil {V : Type} (host : Host V) (b b' : Browser V) (url : GoString)
    (env : network.FetchEnv) (h : LoadURL host b url env = (.nil, b')) :
    -1 ≤ b.historyPos ∧
    b'.history = b.history.take (b.historyPos + 1).toNat ++ [url] ∧
    b'.historyPos = (b'.history.length : Int) - 1 ∧
    b'.currentURL = url ∧
    b'.currentPage.map (fun p => p.URL) = some url := by
  rcases LoadURL_cases host b url env with hc | hc
  · rw [h] at hc
    exact absurd rfl hc.1
  · rw [h] at hc
    exact ⟨hc.2.1, hc.2.2.1, hc.2.2.2.1, hc.2.2.2.2.1, hc.2.2.2.2.2.1⟩

theorem GoBack_nil {V : Type} (host : Host V) (b b' : Browser V)
    (env : network.FetchEnv) (h : GoBack host b env = (.nil, b')) :
    0 < b.historyPos ∧ ∃ url, indexExpr b.history (b.historyPos - 1) = .ok url ∧
      b'.history = b.history.take (b.historyPos - 1 + 1).toNat ++ [url] ∧
      b'.historyPos = (b'.history.length : Int) - 1 ∧
      b'.currentURL = url ∧
      b'.currentPage.map (fun p => p.URL) = some url := by
  unfold GoBack at h
  by_cases h0 : b.historyPos ≤ 0
  · rw [if_pos h0] at h
    cases h
  · rw [if_neg h0] at h
    simp only at h
    cases hu : indexExpr b.history (b.historyPos - 1) with
    | error p =>
      rw [hu] at h
      cases h
    | ok url =>
      rw [hu] at h
      simp only at h
      have := LoadURL_nil host _ b' url env h
      exact ⟨by omega, url, rfl, this.2.1, this.2.2.1, this.2.2.2.1, this.2.2.2.2⟩

theorem LoadURL_inv {V : Type} (host : Host V) (b : Browser V) (url : GoString)
    (env : network.FetchEnv) (h : historyInv b) :
    historyInv (LoadURL host b url env).2 := by
  unfold historyInv at h ⊢
  rcases LoadURL_cases host b url env with hc | hc
  · rw [hc.2.1, hc.2.2]
    exact h
  · rw [hc.2.2.2.1, hc.2.2.1]
    simp only [List.length_append, List.length_singleton, Nat.cast_add, Nat.cast_one]
    omega

theorem GoBack_inv {V : Type} (host : Host V) (b : Browser V) (env : network.FetchEnv)
    (h : historyInv b) : historyInv (GoBack host b env).2 := by
  unfold GoBack
  by_cases h0 : b.historyPos ≤ 0
  · rw [if_pos h0]
    exact h
  · rw [if_neg h0]
    have h1 : historyInv { b with historyPos := b.historyPos - 1 } := by
      unfold historyInv at h ⊢
      simp only
      omega
    simp only
    cases hu : indexExpr b.history (b.historyPos - 1) with
    | error p => exact h1
    | ok url => exact LoadURL_inv host _ url env h1

theorem GoForward_inv {V : Type} (host : Host V) (b : Browser V) (env : network.FetchEnv)
    (h : historyInv b) : historyInv (GoForward host b env).2 := by
  unfold GoForward
  by_cases h0 : b.historyPos ≥ (b.history.length : Int) - 1
  · rw [if_pos h0]
    exact h
  · rw [if_neg h0]
    have h1 : historyInv { b with historyPos := b.historyPos + 1 } := by
      unfold historyInv at h ⊢
      simp only
      omega
    simp only
    cases hu : indexExpr b.history (b.historyPos + 1) with
    | error p => exact h1
    | ok url => exact LoadURL_inv host _ url env h1

theorem step_inv {V : Type} (host : Host V) (b : Browser V)
    (call : Call × network.FetchEnv) (h : historyInv b) :
    historyInv (step host b call).2 := by
  obtain ⟨c, env⟩ := call
  cases c with
  | LoadURL url => exact LoadURL_inv host b url env h
  | GoBack => exact GoBack_inv host b env h
  | GoForward => exact GoForward_inv host b env h

theorem run_inv {V : Type} (host : Host V) (calls : List (Call × network.FetchEnv)) :
    ∀ b : Browser V, historyInv b → historyInv (run host b calls) := by
  induction calls with
  | nil => intro b h; exact h
  | cons call calls ih =>
    intro b h
    exact ih _ (step_inv host b call h)

/-! ## The claims on the navigation session -/

/-- Claim C1, as the code behaves: on a fresh session where `LoadURL(A)`, `LoadURL(B)`,
`LoadURL(C)`, `GoBack()`, `GoBack()` all return nil, the history is `A, B, B` at
position 2, the current page is `B` (not `A`) and `CanGoBack()` is true; a later
successful `LoadURL(D)` does leave `CanGoForward()` false. -/
theorem back_twice_after_three_loads {V : Type} (host : Host V) (A B C : GoString)
    (e1 e2 e3 e4 e5 : network.FetchEnv) (b1 b2 b3 b4 b5 : Browser V)
    (h1 : LoadURL host (NewBrowser host) A e1 = (.nil, b1))
    (h2 : LoadURL host b1 B e2 = (.nil, b2))
    (h3 : LoadURL host b2 C e3 = (.nil, b3))
    (h4 : GoBack host b3 e4 = (.nil, b4))
    (h5 : GoBack host b4 e5 = (.nil, b5)) :
    b5.history = [A, B, B] ∧ b5.historyPos = 2 ∧ b5.currentURL = B ∧
    b5.currentPage.map (fun p => p.URL) = some B ∧ CanGoBack b5 = true ∧
    ∀ (D : GoString) (e6 : network.FetchEnv), (LoadURL host b5 D e6).1 = .nil →
      CanGoForward (LoadURL host b5 D e6).2 = false := by
  obtain ⟨-, g1, p1, -, -⟩ := LoadURL_nil host _ b1 A e1 h1
  simp [NewBrowser] at g1
  simp [g1] at p1
  obtain ⟨-, g2, p2, -, -⟩ := LoadURL_nil host _ b2 B e2 h2
  simp [g1, p1] at g2
  simp [g2] at p2
  obtain ⟨-, g3, p3, -, -⟩ := LoadURL_nil host _ b3 C e3 h3
  simp [g2, p2] at g3
  simp [g3] at p3
  obtain ⟨-, u4, hu4, g4, p4, -, -⟩ := GoBack_nil host b3 b4 e4 h4
  rw [indexExpr_ok] at hu4
  simp [g3, p3] at hu4 g4
  subst hu4
  simp [g4] at p4
  obtain ⟨-, u5, hu5, g5, p5, c5, q5⟩ := GoBack_nil host b4 b5 e5 h5
  rw [indexExpr_ok] at hu5
  simp [g4, p4] at hu5 g5
  subst hu5
  simp [g5] at p5
  refine ⟨g5, p5, c5, q5, by simp [CanGoBack, p5], ?_⟩
  intro D e6 h6
  rcases LoadURL_cases host b5 D e6 with hc | hc
  · exact absurd h6 hc.1
  · simp [CanGoForward, hc.2.2.2.1]

/-- Claim C1 at the URLs `a`, `b`, `c`: after the five calls the current page and the
current URL are `b`, not `a`, and `CanGoBack()` is true. -/
theorem back_twice_after_three_loads_witness :
    (sample.session [sample.loadOk "a".toList, sample.loadOk "b".toList,
      sample.loadOk "c".toList, sample.backOk, sample.backOk]).currentPage.map
        (fun p => p.URL) = some "b".toList ∧
    (sample.session [sample.loadOk "a".toList, sample.loadOk "b".toList,
      sample.loadOk "c".toList, sample.backOk, sample.backOk]).currentURL = "b".toList ∧
    (sample.session [sample.loadOk "a".toList, sample.loadOk "b".toList,
      sample.loadOk "c".toList, sample.backOk, sample.backOk]).currentURL ≠ "a".toList ∧
    CanGoBack (sample.session [sample.loadOk "a".toList, sample.loadOk "b".toList,
      sample.loadOk "c".toList, sample.backOk, sample.backOk]) = true :=
  have h := back_twice_after_three_loads sample.plainHost "a".toList "b".toList "c".toList
    (sample.okEnv 0 []) (sample.okEnv 0 []) (sample.okEnv 0 []) (sample.okEnv 0 [])
    (sample.okEnv 0 [])
    (sample.session [sample.loadOk "a".toList])
    (sample.session [sample.loadOk "a".toList, sample.loadOk "b".toList])
    (sample.session [sample.loadOk "a".toList, sample.loadOk "b".toList,
      sample.loadOk "c".toList])
    (sample.session [sample.loadOk "a".toList, sample.loadOk "b".toList,
      sample.loadOk "c".toList, sample.backOk])
    (sample.session [sample.loadOk "a".toList, sample.loadOk "b".toList,
      sample.loadOk "c".toList, sample.backOk, sample.backOk])
    rfl rfl rfl rfl rfl
  ⟨h.2.2.2.1, h.2.2.1, by rw [h.2.2.1]; decide, h.2.2.2.2.1⟩

/-- Claim C3: when the fetch of `LoadURL(url)` returns an error, `LoadURL` returns that
error and the whole session (current URL, current page, history, position, and the
rest of the state) is what it was before the call. -/
theorem LoadURL_fetch_failure_atomic {V : Type} (host : Host V) (b : Browser V)
    (url : GoString) (env : network.FetchEnv) (err : GoError)
    (h : (network.Fetch b.networkManager url env).1 = .error err) :
    (LoadURL host b url env).1 = .err err ∧ (LoadURL host b url env).2 = b ∧
    (LoadURL host b url env).2.currentURL = b.currentURL ∧
    (LoadURL host b url env).2.history = b.history ∧
    (LoadURL host b url env).2.historyPos = b.historyPos := by
  rw [LoadURL_of_fetch_error host b url env err h]
  exact ⟨rfl, rfl, rfl, rfl, rfl⟩

/-- Claim C3 on the session that loaded `a` and then asks for `b` while the server is
down. -/
theorem LoadURL_fetch_failure_atomic_witness :
    (LoadURL sample.plainHost (sample.session [sample.loadOk "a".toList]) "b".toList
        (sample.downEnv 0)).1 = .err (.requestExecution "connection refused".toList) ∧
    (LoadURL sample.plainHost (sample.session [sample.loadOk "a".toList]) "b".toList
        (sample.downEnv 0)).2 = sample.session [sample.loadOk "a".toList] :=
  have h := LoadURL_fetch_failure_atomic sample.plainHost
    (sample.session [sample.loadOk "a".toList]) "b".toList (sample.downEnv 0)
    (.requestExecution "connection refused".toList) rfl
  ⟨h.1, h.2.1⟩

/-- Claim C4, as the code behaves: when the fetch made inside `GoBack` (`GoForward`)
fails from a state where the move is within the history bounds, the call returns the
error, the current page and the history are unchanged, but the position has moved to
`historyPos - 1` (`historyPos + 1`): the session is not the one before the call. -/
theorem navigation_fetch_failure_moves_position {V : Type} (host : Host V)
    (b : Browser V) (env : network.FetchEnv) (url : GoString) (err : GoError) :
    (0 < b.historyPos → indexExpr b.history (b.historyPos - 1) = .ok url →
      (network.Fetch b.networkManager url env).1 = .error err →
      GoBack host b env = (.err err, { b with historyPos := b.historyPos - 1 }) ∧
      (GoBack host b env).2 ≠ b) ∧
    (b.historyPos < (b.history.length : Int) - 1 →
      indexExpr b.history (b.historyPos + 1) = .ok url →
      (network.Fetch b.networkManager url env).1 = .error err →
      GoForward host b env = (.err err, { b with historyPos := b.historyPos + 1 }) ∧
      (GoForward host b env).2 ≠ b) := by
  constructor
  · intro h0 hu hf
    have hg : GoBack host b env = (.err err, { b with historyPos := b.historyPos - 1 }) := by
      rw [GoBack_inbounds host b env url h0 hu]
      exact LoadURL_of_fetch_error host _ url env err hf
    refine ⟨hg, ?_⟩
    rw [hg]
    intro hb
    have := congrArg Browser.historyPos hb
    simp only at this
    omega
  · intro h0 hu hf
    have hg : GoForward host b env
        = (.err err, { b with historyPos := b.historyPos + 1 }) := by
      rw [GoForward_inbounds host b env url h0 hu]
      exact LoadURL_of_fetch_error host _ url env err hf
    refine ⟨hg, ?_⟩
    rw [hg]
    intro hb
    have := congrArg Browser.historyPos hb
    simp only at this
    omega

/-- Claim C4 on the session that loaded `a` and `b` (position 1 on page `b`): `GoBack()`
with the server down returns the error and leaves position 0 under page `b`; from
there `GoForward()` with the server down returns the error and moves to position 1. -/
theorem navigation_fetch_failure_moves_position_witness :
    ((GoBack sample.plainHost (sample.session [sample.loadOk "a".toList,
        sample.loadOk "b".toList]) (sample.downEnv sample.later)).1
      = .err (.requestExecution "connection refused".toList) ∧
    (GoBack sample.plainHost (sample.session [sample.loadOk "a".toList,
        sample.loadOk "b".toList]) (sample.downEnv sample.later)).2.historyPos = 0 ∧
    (sample.session [sample.loadOk "a".toList, sample.loadOk "b".toList]).historyPos = 1 ∧
    (GoBack sample.plainHost (sample.session [sample.loadOk "a".toList,
        sample.loadOk "b".toList]) (sample.downEnv sample.later)).2.currentURL
      = "b".toList) ∧
    (GoForward sample.plainHost (sample.session [sample.loadOk "a".toList,
        sample.loadOk "b".toList, (.GoBack, sample.downEnv sample.later)])
        (sample.downEnv sample.later)).2.historyPos = 1 ∧
    (sample.session [sample.loadOk "a".toList, sample.loadOk "b".toList,
        (.GoBack, sample.downEnv sample.later)]).historyPos = 0 :=
  have h := (navigation_fetch_failure_moves_position sample.plainHost
    (sample.session [sample.loadOk "a".toList, sample.loadOk "b".toList])
    (sample.downEnv sample.later) "a".toList
    (.requestExecution "connection refused".toList)).1 (by decide) rfl rfl
  have g := (navigation_fetch_failure_moves_position sample.plainHost
    (sample.session [sample.loadOk "a".toList, sample.loadOk "b".toList,
      (.GoBack, sample.downEnv sample.later)])
    (sample.downEnv sample.later) "b".toList
    (.requestExecution "connection refused".toList)).2 (by decide) rfl rfl
  ⟨⟨by rw [h.1], by rw [h.1]; rfl, rfl, by rw [h.1]; rfl⟩, by rw [g.1]; rfl, rfl⟩

/-- The commit step when it is reached: from a state with history `h` and position `p`,
`-1 ≤ p ≤ len(h)-1`, when the fetch of `u` succeeds and `Parse` returns on the content,
`LoadURL(u)` returns nil, the history is the first `p+1` entries of `h` followed by `u`,
the position is `p+1`, the index of that last entry, and the current page has URL `u`. -/
theorem LoadURL_commit {V : Type} (host : Host V) (b : Browser V) (u : GoString)
    (env : network.FetchEnv) (content : GoString) (r : html.Document × Option GoError)
    (hlo : -1 ≤ b.historyPos) (hhi : b.historyPos ≤ (b.history.length : Int) - 1)
    (hf : (network.Fetch b.networkManager u env).1 = .ok content)
    (hp : html.Parse content = .ok r) :
    (LoadURL host b u env).1 = .nil ∧
    (LoadURL host b u env).2.history = b.history.take (b.historyPos + 1).toNat ++ [u] ∧
    (LoadURL host b u env).2.historyPos = b.historyPos + 1 ∧
    (LoadURL host b u env).2.history[(b.historyPos + 1).toNat]? = some u ∧
    (LoadURL host b u env).2.currentPage.map (fun p => p.URL) = some u ∧
    (LoadURL host b u env).2.currentURL = u := by
  have hs := LoadURL_success host b u env content r hf hp hlo
  rcases LoadURL_cases host b u env with hc | hc
  · exact absurd hs hc.1
  · obtain ⟨-, -, hh, hpos, hcur, hpage, -⟩ := hc
    have hlen : (b.history.take (b.historyPos + 1).toNat).length
        = (b.historyPos + 1).toNat := by
      rw [List.length_take]
      omega
    refine ⟨hs, hh, ?_, ?_, hpage, hcur⟩
    · rw [hpos, hh]
      simp only [List.length_append, List.length_singleton, Nat.cast_add, Nat.cast_one, hlen]
      omega
    · rw [hh, List.getElem?_append_right (by omega), hlen]
      simp

/-- The commit step on the session that loaded `a`, `b`, `c` and then failed to go
back (history `a, b, c` at position 1): `LoadURL(d)` leaves the history `a, b, d` at
position 2. -/
theorem LoadURL_commit_example :
    (sample.session [sample.loadOk "a".toList, sample.loadOk "b".toList,
        sample.loadOk "c".toList, (.GoBack, sample.downEnv sample.later)]).historyPos = 1 ∧
    (LoadURL sample.plainHost
      (sample.session [sample.loadOk "a".toList, sample.loadOk "b".toList,
        sample.loadOk "c".toList, (.GoBack, sample.downEnv sample.later)])
      "d".toList (sample.okEnv 0 [])).2.history
        = ["a".toList, "b".toList, "d".toList] ∧
    (LoadURL sample.plainHost
      (sample.session [sample.loadOk "a".toList, sample.loadOk "b".toList,
        sample.loadOk "c".toList, (.GoBack, sample.downEnv sample.later)])
      "d".toList (sample.okEnv 0 [])).2.historyPos = 2 :=
  have h := LoadURL_commit sample.plainHost
    (sample.session [sample.loadOk "a".toList, sample.loadOk "b".toList,
      sample.loadOk "c".toList, (.GoBack, sample.downEnv sample.later)])
    "d".toList (sample.okEnv 0 []) [] _ (by decide) (by decide) rfl rfl
  ⟨rfl, h.2.1, h.2.2.1⟩

/-- Claim C5, as the code behaves: when the fetch of `u` succeeds with a content on
which `Parse` panics, `LoadURL(u)` panics before the commit step: the history, the
position, the current page and the current URL stay what they were; in particular
the position is not `p+1` and the page is not that of `u`. -/
theorem LoadURL_no_commit_when_Parse_panics {V : Type} (host : Host V) (b : Browser V)
    (u : GoString) (env : network.FetchEnv) (content : GoString) (p : RuntimePanic)
    (hf : (network.Fetch b.networkManager u env).1 = .ok content)
    (hp : html.Parse content = .error p) :
    (LoadURL host b u env).1 = .panic p ∧
    (LoadURL host b u env).2.history = b.history ∧
    (LoadURL host b u env).2.historyPos = b.historyPos ∧
    (LoadURL host b u env).2.currentPage.map (fun page => page.URL)
      = b.currentPage.map (fun page => page.URL) ∧
    (LoadURL host b u env).2.currentURL = b.currentURL ∧
    (LoadURL host b u env).2.historyPos ≠ b.historyPos + 1 := by
  have hl : LoadURL host b u env
      = (.panic p, { b with networkManager := (network.Fetch b.networkManager u env).2 }) := by
    unfold LoadURL
    rcases hf2 : network.Fetch b.networkManager u env with ⟨r, m⟩
    rw [hf2] at hf
    simp only at hf
    subst hf
    simp only [hp]
  rw [hl]
  refine ⟨rfl, rfl, rfl, rfl, rfl, ?_⟩
  simp only
  omega

/-- Claim C5 on a fresh session (empty history, position -1) and a server that answers
`<body</body>`: `LoadURL(a)` panics and the history stays empty instead of becoming
`a`. -/
theorem LoadURL_no_commit_when_Parse_panics_witness :
    (LoadURL sample.plainHost (NewBrowser sample.plainHost) "a".toList
        (sample.okEnv 0 "<body</body>".toList)).1 = .panic (.sliceOutOfRange 12 5 12) ∧
    (LoadURL sample.plainHost (NewBrowser sample.plainHost) "a".toList
        (sample.okEnv 0 "<body</body>".toList)).2.history = [] ∧
    (LoadURL sample.plainHost (NewBrowser sample.plainHost) "a".toList
        (sample.okEnv 0 "<body</body>".toList)).2.historyPos = -1 :=
  have h := LoadURL_no_commit_when_Parse_panics sample.plainHost
    (NewBrowser sample.plainHost) "a".toList (sample.okEnv 0 "<body</body>".toList)
    "<body</body>".toList (.sliceOutOfRange 12 5 12) rfl rfl
  ⟨h.1, h.2.1, h.2.2.1⟩

/-- Claim C6: starting from `NewBrowser`, after any finite sequence of `LoadURL`,
`GoBack` and `GoForward` calls, each in arbitrary surroundings (so with an arbitrary
fetch outcome) and however each call ends, `-1 ≤ historyPos ≤ len(history) - 1`. -/
theorem history_position_invariant {V : Type} (host : Host V)
    (calls : List (Call × network.FetchEnv)) :
    -1 ≤ (run host (NewBrowser host) calls).historyPos ∧
    (run host (NewBrowser host) calls).historyPos
      ≤ ((run host (NewBrowser host) calls).history.length : Int) - 1 :=
  run_inv host calls (NewBrowser host) (by simp [historyInv, NewBrowser])

/-- Claim C7: `CanGoBack()` is false exactly when `historyPos ≤ 0` and `CanGoForward()`
exactly when `historyPos ≥ len(history) - 1`; in these states `GoBack()`, respectively
`GoForward()`, returns `http.ErrNoLocation` in every surroundings and leaves the whole
session, network manager included, as it was: no fetch is made. -/
theorem out_of_bounds_navigation_rejected {V : Type} (host : Host V) (b : Browser V)
    (env : network.FetchEnv) :
    (CanGoBack b = false ↔ b.historyPos ≤ 0) ∧
    (CanGoForward b = false ↔ b.historyPos ≥ (b.history.length : Int) - 1) ∧
    (CanGoBack b = false → GoBack host b env = (.err .ErrNoLocation, b)) ∧
    (CanGoForward b = false → GoForward host b env = (.err .ErrNoLocation, b)) := by
  have hb : CanGoBack b = false ↔ b.historyPos ≤ 0 := by
    simp [CanGoBack]
  have hfw : CanGoForward b = false ↔ b.historyPos ≥ (b.history.length : Int) - 1 := by
    simp [CanGoForward]
  refine ⟨hb, hfw, ?_, ?_⟩
  · intro h
    unfold GoBack
    rw [if_pos (hb.mp h)]
  · intro h
    unfold GoForward
    rw [if_pos (hfw.mp h)]

/-- Claim C7 on the session that loaded `a` only (position 0 of a history of length 1):
both `GoBack()` and `GoForward()` are rejected and change nothing. -/
theorem out_of_bounds_navigation_rejected_witness :
    GoBack sample.plainHost (sample.session [sample.loadOk "a".toList])
        (sample.okEnv sample.later "x".toList)
      = (.err .ErrNoLocation, sample.session [sample.loadOk "a".toList]) ∧
    GoForward sample.plainHost (sample.session [sample.loadOk "a".toList])
        (sample.okEnv sample.later "x".toList)
      = (.err .ErrNoLocation, sample.session [sample.loadOk "a".toList]) :=
  have h := out_of_bounds_navigation_rejected sample.plainHost
    (sample.session [sample.loadOk "a".toList]) (sample.okEnv sample.later "x".toList)
  ⟨h.2.2.1 (by decide), h.2.2.2 (by decide)⟩

end browser

/-! ## The claims on the parser -/

namespace strings

theorem indexAux_spec (substr : GoString) : ∀ (s : GoString) (i : Nat),
    (indexAux substr s i = -1 ∧ ∀ k, k ≤ s.length → ¬ substr <+: s.drop k) ∨
    (∃ k, k ≤ s.length ∧ indexAux substr s i = ((i + k : Nat) : Int) ∧
      substr <+: s.drop k ∧ ∀ j, j < k → ¬ substr <+: s.drop j)
  | [], i => by
    rw [indexAux]
    by_cases h : substr.isPrefixOf [] = true
    · right
      refine ⟨0, le_refl _, by simp [h], by simpa [List.isPrefixOf_iff_prefix] using h, ?_⟩
      intro j hj
      omega
    · left
      refine ⟨by simp [h], ?_⟩
      intro k hk
      simp only [List.length_nil, Nat.le_zero_eq] at hk
      subst hk
      simpa [List.isPrefixOf_iff_prefix] using h
  | c :: cs, i => by
    rw [indexAux]
    by_cases h : substr.isPrefixOf (c :: cs) = true
    · right
      refine ⟨0, Nat.zero_le _, by simp [h], ?_, ?_⟩
      · simpa [List.isPrefixOf_iff_prefix] using h
      · intro j hj
        omega
    · have h0 : ¬ substr <+: c :: cs := by
        simpa [List.isPrefixOf_iff_prefix] using h
      rw [if_neg h]
      rcases indexAux_spec substr cs (i + 1) with ⟨h1, h2⟩ | ⟨k, hk, h1, h2, h3⟩
      · left
        refine ⟨h1, ?_⟩
        intro k hk
        cases k with
        | zero => simpa using h0
        | succ k =>
          simp only [List.drop_succ_cons]
          exact h2 k (by simpa using hk)
      · right
        refine ⟨k + 1, by simpa using hk, ?_, by simpa using h2, ?_⟩
        · rw [h1]
          congr 1
          omega
        · intro j hj
          cases j with
          | zero => simpa using h0
          | succ j =>
            simp only [List.drop_succ_cons]
            exact h3 j (by omega)

theorem Index_spec (s substr : GoString) :
    (Index s substr = -1 ∧ ∀ k, k ≤ s.length → ¬ substr <+: s.drop k) ∨
    (∃ k, k ≤ s.length ∧ Index s substr = (k : Int) ∧
      substr <+: s.drop k ∧ ∀ j, j < k → ¬ substr <+: s.drop j) := by
  unfold Index
  rcases indexAux_spec substr s 0 with h | ⟨k, hk, h1, h2, h3⟩
  · exact Or.inl h
  · exact Or.inr ⟨k, hk, by simpa using h1, h2, h3⟩

end strings

namespace html

theorem parseTitle_ok (htmlContent : GoString) : ∃ title, parseTitle htmlContent = .ok title := by
  unfold parseTitle
  dsimp only
  split_ifs with h
  · obtain ⟨h0, hlt⟩ := h
    rcases strings.Index_spec htmlContent "<title>".toList with ⟨h1, -⟩ | ⟨k1, hk1, e1, p1, -⟩
    · omega
    rcases strings.Index_spec htmlContent "</title>".toList with ⟨h2, -⟩ | ⟨k2, hk2, e2, p2, -⟩
    · omega
    rw [e1, e2] at hlt ⊢
    have hk : k1 < k2 := by exact_mod_cast hlt
    have hbound : k1 + 7 ≤ k2 := by
      by_contra hc
      obtain ⟨r, hr⟩ := p1
      have hd : htmlContent.drop k2 = ("<title>".toList ++ r).drop (k2 - k1) := by
        rw [hr, List.drop_drop]
        congr 1
        omega
      rw [hd] at p2
      obtain ⟨r2, hr2⟩ := p2
      have hcases : k2 - k1 = 1 ∨ k2 - k1 = 2 ∨ k2 - k1 = 3 ∨ k2 - k1 = 4 ∨ k2 - k1 = 5
          ∨ k2 - k1 = 6 := by omega
      rcases hcases with h | h | h | h | h | h <;> rw [h] at hr2 <;>
        simp [String.toList] at hr2
    unfold sliceExpr
    rw [if_pos]
    · exact ⟨_, rfl⟩
    · refine ⟨by omega, by exact_mod_cast hbound, by exact_mod_cast hk2⟩
  · exact ⟨_, rfl⟩

theorem Parse_returns_iff (htmlContent : GoString) :
    (∃ r, Parse htmlContent = .ok r) ↔ ∃ body, parseBody htmlContent = .ok body := by
  obtain ⟨title, ht⟩ := parseTitle_ok htmlContent
  unfold Parse
  rw [ht]
  cases hb : parseBody htmlContent with
  | error p => simp
  | ok body => simp

/-- Claim C2, as the code behaves: on `<body</body>`, where the body start tag has no
`>` before the first `</body>`, `Parse` takes the slice `htmlContent[12:5]` and
panics with `slice bounds out of range` instead of returning a document. -/
theorem Parse_panics_on_unclosed_body_tag :
    Parse "<body</body>".toList = .error (.sliceOutOfRange 12 5 12) := by
  rfl

end html

/-! ## The claims on the document queries -/

namespace html

mutual
theorem findElementsByTagNameRecursive_eq (EqualFold : GoString → GoString → Bool)
    (tagName : GoString) : ∀ (e : Element) (result : List Element),
    findElementsByTagNameRecursive EqualFold tagName e result
      = result ++ (preOrder e).filter (fun x => EqualFold x.TagName tagName)
  | .mk t a c x i k, result => by
    rw [findElementsByTagNameRecursive, preOrder,
      findElementsByTagNameChildren_eq EqualFold tagName c]
    by_cases h : EqualFold t tagName = true
    · simp [List.filter_cons, Element.TagName, h]
    · simp [List.filter_cons, Element.TagName, h]
theorem findElementsByTagNameChildren_eq (EqualFold : GoString → GoString → Bool)
    (tagName : GoString) : ∀ (es : List Element) (result : List Element),
    findElementsByTagNameChildren EqualFold tagName es result
      = result ++ (preOrderAll es).filter (fun x => EqualFold x.TagName tagName)
  | [], result => by
    simp [findElementsByTagNameChildren, preOrderAll]
  | e :: es, result => by
    rw [findElementsByTagNameChildren, findElementsByTagNameRecursive_eq EqualFold tagName e,
      findElementsByTagNameChildren_eq EqualFold tagName es, preOrderAll]
    simp
end

theorem foldl_findElementsByTagNameRecursive (EqualFold : GoString → GoString → Bool)
    (tagName : GoString) : ∀ (es : List Element) (result : List Element),
    es.foldl (fun result element =>
        findElementsByTagNameRecursive EqualFold tagName element result) result
      = result ++ (preOrderAll es).filter (fun x => EqualFold x.TagName tagName)
  | [], result => by simp [preOrderAll]
  | e :: es, result => by
    rw [List.foldl_cons, foldl_findElementsByTagNameRecursive EqualFold tagName es,
      findElementsByTagNameRecursive_eq, preOrderAll]
    simp

/-- Claim C8: for every document and tag, `FindElementsByTagName` returns exactly the
elements of the whole tree whose tag name matches the tag under `strings.EqualFold`
(case-insensitively), in pre-order: node before its children, children left to right,
top-level nodes in sequence order; it is empty exactly when nothing matches. -/
theorem FindElementsByTagName_preOrder (EqualFold : GoString → GoString → Bool)
    (d : Document) (tagName : GoString) :
    FindElementsByTagName EqualFold d tagName
      = (preOrderAll d.Elements).filter (fun e => EqualFold e.TagName tagName) ∧
    (FindElementsByTagName EqualFold d tagName = [] ↔
      ∀ e ∈ preOrderAll d.Elements, EqualFold e.TagName tagName = false) := by
  have h : FindElementsByTagName EqualFold d tagName
      = (preOrderAll d.Elements).filter (fun e => EqualFold e.TagName tagName) := by
    unfold FindElementsByTagName
    rw [foldl_findElementsByTagNameRecursive]
    simp
  refine ⟨h, ?_⟩
  rw [h, List.filter_eq_nil_iff]
  simp

/-- Evaluation of `FindElementsByTagName` on `sample.duplicateIds` with the tag `P`
and ASCII case folding: the one `p` element is found. -/
theorem FindElementsByTagName_example :
    FindElementsByTagName sample.plainHost.EqualFold sample.duplicateIds "P".toList
      = [.mk "p".toList [] [] [] "y".toList []] := by
  rfl

mutual
theorem findElementByIDRecursive_eq (id : GoString) : ∀ (e : Element),
    findElementByIDRecursive id e = (preOrder e).find? (fun x => x.ID == id)
  | .mk t a c x i k => by
    rw [findElementByIDRecursive, preOrder, List.find?_cons,
      findElementByIDChildren_eq id c]
    by_cases h : i = id
    · have hb : ((Element.mk t a c x i k).ID == id) = true := by simp [Element.ID, h]
      rw [hb, if_pos h]
    · have hb : ((Element.mk t a c x i k).ID == id) = false := by simp [Element.ID, h]
      rw [hb, if_neg h]
theorem findElementByIDChildren_eq (id : GoString) : ∀ (es : List Element),
    findElementByIDChildren id es = (preOrderAll es).find? (fun x => x.ID == id)
  | [] => by simp [findElementByIDChildren, preOrderAll]
  | e :: es => by
    rw [findElementByIDChildren, findElementByIDRecursive_eq id e,
      findElementByIDChildren_eq id es, preOrderAll, List.find?_append]
    cases (preOrder e).find? (fun x => x.ID == id) <;> simp
end

theorem FindElementsByID_loop_eq (id : GoString) : ∀ (es : List Element),
    FindElementsByID.loop id es = (preOrderAll es).find? (fun x => x.ID == id)
  | [] => by simp [FindElementsByID.loop, preOrderAll]
  | e :: es => by
    rw [FindElementsByID.loop, findElementByIDRecursive_eq id e,
      FindElementsByID_loop_eq id es, preOrderAll, List.find?_append]
    cases (preOrder e).find? (fun x => x.ID == id) <;> simp

theorem find?_first {α : Type} (p : α → Bool) : ∀ (l : List α) (a : α),
    l.find? p = some a →
    ∃ pre post, l = pre ++ a :: post ∧ p a = true ∧ ∀ x ∈ pre, p x = false
  | [], a, h => by simp at h
  | b :: l, a, h => by
    rw [List.find?_cons] at h
    cases hb : p b with
    | true =>
      rw [hb] at h
      cases h
      exact ⟨[], l, rfl, hb, by simp⟩
    | false =>
      rw [hb] at h
      obtain ⟨pre, post, hl, ha, hpre⟩ := find?_first p l a h
      refine ⟨b :: pre, post, by rw [hl]; rfl, ha, ?_⟩
      intro x hx
      rcases List.mem_cons.mp hx with rfl | hx
      · exact hb
      · exact hpre x hx

/-- Claim C9: for every document and id, `FindElementsByID` returns the first element
in pre-order whose `ID` equals the id: every element before the returned one in
document order has another `ID`, so with duplicate ids never a later one; and it
returns nil exactly when no element of the tree has that id. -/
theorem FindElementsByID_first (d : Document) (id : GoString) :
    FindElementsByID d id = (preOrderAll d.Elements).find? (fun e => e.ID == id) ∧
    (∀ e, FindElementsByID d id = some e →
      ∃ pre post, preOrderAll d.Elements = pre ++ e :: post ∧ e.ID = id ∧
        ∀ x ∈ pre, x.ID ≠ id) ∧
    (FindElementsByID d id = none ↔ ∀ e ∈ preOrderAll d.Elements, e.ID ≠ id) := by
  have h : FindElementsByID d id
      = (preOrderAll d.Elements).find? (fun e => e.ID == id) := by
    unfold FindElementsByID
    exact FindElementsByID_loop_eq id d.Elements
  refine ⟨h, ?_, ?_⟩
  · intro e he
    rw [h] at he
    obtain ⟨pre, post, hl, ha, hpre⟩ := find?_first _ _ e he
    refine ⟨pre, post, hl, by simpa using ha, ?_⟩
    intro x hx
    simpa using hpre x hx
  · rw [h, List.find?_eq_none]
    simp

/-- Claim C9 on a document holding the id `x` on a `div` and, later in document
order, on a `span`: the `div` is returned. -/
theorem FindElementsByID_first_witness :
    ∃ pre post, preOrderAll sample.duplicateIds.Elements
      = pre ++ Element.mk "div".toList []
          [.mk "p".toList [] [] [] "y".toList [],
           .mk "span".toList [] [] [] "x".toList []] [] "x".toList [] :: post ∧
      ∀ e ∈ pre, e.ID ≠ "x".toList :=
  have h := (FindElementsByID_first sample.duplicateIds "x".toList).2.1 _ rfl
  match h with
  | ⟨pre, post, h1, _, h3⟩ => ⟨pre, post, h1, h3⟩

end html

/-! ## The claims on the layout -/

namespace renderer

theorem wrapInt_add_wrapInt_left (a b : Int) : wrapInt (wrapInt a + b) = wrapInt (a + b) := by
  unfold wrapInt
  have h : ((a + 2 ^ 63) % 2 ^ 64 - 2 ^ 63 + b + 2 ^ 63 : Int)
      = (a + 2 ^ 63) % 2 ^ 64 + b := by ring
  rw [h, Int.emod_add_emod]
  congr 2
  ring

theorem wrapInt_of_inRange (a : Int) (h0 : -(2 ^ 63) ≤ a) (h1 : a < 2 ^ 63) :
    wrapInt a = a := by
  unfold wrapInt
  rw [Int.emod_eq_of_lt (by omega) (by omega)]
  omega

namespace RenderedElement

@[simp] theorem Children_setChildren (r : RenderedElement) (v : List RenderedElement) :
    (r.setChildren v).Children = v := by cases r; rfl

@[simp] theorem Children_setHeight (r : RenderedElement) (v : Int) :
    (r.setHeight v).Children = r.Children := by cases r; rfl

@[simp] theorem Children_setWidth (r : RenderedElement) (v : Int) :
    (r.setWidth v).Children = r.Children := by cases r; rfl

@[simp] theorem Children_setColor (r : RenderedElement) (v : GoString) :
    (r.setColor v).Children = r.Children := by cases r; rfl

@[simp] theorem Children_setBackground (r : RenderedElement) (v : GoString) :
    (r.setBackground v).Children = r.Children := by cases r; rfl

@[simp] theorem Y_setChildren (r : RenderedElement) (v : List RenderedElement) :
    (r.setChildren v).Y = r.Y := by cases r; rfl

@[simp] theorem Y_setHeight (r : RenderedElement) (v : Int) :
    (r.setHeight v).Y = r.Y := by cases r; rfl

@[simp] theorem Y_setWidth (r : RenderedElement) (v : Int) :
    (r.setWidth v).Y = r.Y := by cases r; rfl

@[simp] theorem Y_setColor (r : RenderedElement) (v : GoString) :
    (r.setColor v).Y = r.Y := by cases r; rfl

@[simp] theorem Y_setBackground (r : RenderedElement) (v : GoString) :
    (r.setBackground v).Y = r.Y := by cases r; rfl

@[simp] theorem Height_setChildren (r : RenderedElement) (v : List RenderedElement) :
    (r.setChildren v).Height = r.Height := by cases r; rfl

@[simp] theorem Height_setHeight (r : RenderedElement) (v : Int) :
    (r.setHeight v).Height = v := by cases r; rfl

end RenderedElement

theorem applyStyle_frame (element : RenderedElement) (style : GoString) :
    (applyStyle element style).Children = element.Children ∧
    (applyStyle element style).Y = element.Y := by
  unfold applyStyle
  split
  · dsimp only
    split_ifs <;> (try split) <;> simp
  · simp

theorem applyStyles_frame (styleStr : GoString) (element : RenderedElement) :
    (applyStyles element styleStr).Children = element.Children ∧
    (applyStyles element styleStr).Y = element.Y := by
  unfold applyStyles
  generalize strings.Split styleStr ';' = styles
  induction styles generalizing element with
  | nil => simp
  | cons style styles ih =>
    rw [List.foldl_cons]
    have h1 := ih (applyStyle element style)
    have h2 := applyStyle_frame element style
    exact ⟨h1.1.trans h2.1, h1.2.trans h2.2⟩

theorem renderElement_shape (e : html.Element) (x y : Int) :
    (renderElement e x y).Y = y ∧
    ∃ height, (renderElement e x y).Children
      = renderChildren e.Children (wrapInt (x + 10)) y height := by
  obtain ⟨t, a, c, txt, i, k⟩ := e
  unfold renderElement
  dsimp only
  generalize hs : (match a.lookup "style".toList with
      | some style => applyStyles
          (RenderedElement.mk t txt x y 100 20 "#000000".toList "#FFFFFF".toList []) style
      | none => RenderedElement.mk t txt x y 100 20 "#000000".toList "#FFFFFF".toList [])
    = styled
  have hframe : styled.Children = [] ∧ styled.Y = y := by
    rw [← hs]
    split
    · exact applyStyles_frame _ _
    · exact ⟨rfl, rfl⟩
  split
  · simp [hframe.1, hframe.2, html.Element.Children]
  · simp [hframe.1, hframe.2, html.Element.Children]

theorem renderChildren_consecutive : ∀ (cs : List html.Element) (childX currentY height : Int)
    (pre post : List RenderedElement) (c1 c2 : RenderedElement),
    renderChildren cs childX currentY height = pre ++ c1 :: c2 :: post →
    c2.Y = wrapInt (c1.Y + c1.Height)
  | [], _, _, _, pre, post, c1, c2, h => by
    rw [renderChildren] at h
    cases pre <;> simp at h
  | child :: rest, childX, currentY, height, [], post, c1, c2, h => by
    rw [renderChildren] at h
    simp only [List.nil_append, List.cons.injEq] at h
    obtain ⟨h1, h2⟩ := h
    cases rest with
    | nil =>
      rw [renderChildren] at h2
      cases h2
    | cons child2 rest2 =>
      rw [renderChildren] at h2
      simp only [List.cons.injEq] at h2
      rw [← h2.1, (renderElement_shape child2 _ _).1, ← h1,
        (renderElement_shape child _ _).1, wrapInt_add_wrapInt_left,
        wrapInt_add_wrapInt_left]
      congr 1
      ring
  | child :: rest, childX, currentY, height, p :: pre, post, c1, c2, h => by
    rw [renderChildren] at h
    simp only [List.cons_append, List.cons.injEq] at h
    exact renderChildren_consecutive rest childX _ height pre post c1 c2 h.2

theorem boxes_eq (r : RenderedElement) : boxes r = r :: boxesAll r.Children := by
  cases r
  rw [boxes]
  rfl

mutual
theorem boxes_renderElement_consecutive : ∀ (e : html.Element) (x y : Int)
    (box : RenderedElement), box ∈ boxes (renderElement e x y) →
    ∀ (pre post : List RenderedElement) (c1 c2 : RenderedElement),
      box.Children = pre ++ c1 :: c2 :: post → c2.Y = wrapInt (c1.Y + c1.Height)
  | .mk t a c txt i k, x, y, box, hbox => by
    obtain ⟨-, height, hch⟩ := renderElement_shape (.mk t a c txt i k) x y
    rw [boxes_eq, hch] at hbox
    rcases List.mem_cons.mp hbox with rfl | hin
    · intro pre post c1 c2 h
      rw [hch] at h
      exact renderChildren_consecutive _ _ _ _ pre post c1 c2 h
    · exact boxes_renderChildren_consecutive c _ _ _ box hin
theorem boxes_renderChildren_consecutive : ∀ (cs : List html.Element)
    (childX currentY height : Int) (box : RenderedElement),
    box ∈ boxesAll (renderChildren cs childX currentY height) →
    ∀ (pre post : List RenderedElement) (c1 c2 : RenderedElement),
      box.Children = pre ++ c1 :: c2 :: post → c2.Y = wrapInt (c1.Y + c1.Height)
  | [], _, _, _, box, hbox => by
    rw [renderChildren, boxesAll] at hbox
    cases hbox
  | child :: rest, childX, currentY, height, box, hbox => by
    rw [renderChildren, boxesAll] at hbox
    rcases List.mem_append.mp hbox with hin | hin
    · exact boxes_renderElement_consecutive child _ _ box hin
    · exact boxes_renderChildren_consecutive rest _ _ _ box hin
end

/-- Claim C10, amended: in the box tree `renderElement` produces for any element tree,
style attributes and start position, any two consecutive children `c1`, `c2` of any box
satisfy `c2.Y >= c1.Y + c1.Height` with the sum taken as Go takes it on `int`, wrapping
around at 64 bits (in fact with equality), `c1.Height` being the final height of `c1`;
when that sum does not leave the 64-bit range the inequality holds between the integers
themselves. -/
theorem siblings_do_not_overlap (e : html.Element) (x y : Int)
    (box c1 c2 : RenderedElement) (pre post : List RenderedElement)
    (hbox : box ∈ boxes (renderElement e x y))
    (hc : box.Children = pre ++ c1 :: c2 :: post) :
    c2.Y ≥ wrapInt (c1.Y + c1.Height) ∧ c2.Y = wrapInt (c1.Y + c1.Height) ∧
    (-(2 ^ 63) ≤ c1.Y + c1.Height ∧ c1.Y + c1.Height < 2 ^ 63 →
      c2.Y ≥ c1.Y + c1.Height) := by
  have h := boxes_renderElement_consecutive e x y box hbox pre post c1 c2 hc
  refine ⟨le_of_eq h.symm, h, ?_⟩
  rintro ⟨h0, h1⟩
  rw [h, wrapInt_of_inRange _ h0 h1]

/-- Claim C10, amended, on the two `p` children of `sample.styledDiv` laid out at
(0, 0): the first is at `Y = 30` with final height 40, the second at `Y = 70`. -/
theorem siblings_do_not_overlap_witness :
    (renderElement (.mk "p".toList [("style".toList, "color:red;width:50px".toList)]
        [] [] [] []) 10 70).Y
      ≥ (renderElement (.mk "p".toList [] [.mk "b".toList [] [] [] [] []] [] [] []) 10 30).Y
        + (renderElement (.mk "p".toList [] [.mk "b".toList [] [] [] [] []] [] [] [])
            10 30).Height :=
  (siblings_do_not_overlap sample.styledDiv 0 0 (renderElement sample.styledDiv 0 0)
    (renderElement (.mk "p".toList [] [.mk "b".toList [] [] [] [] []] [] [] []) 10 30)
    (renderElement (.mk "p".toList [("style".toList, "color:red;width:50px".toList)]
        [] [] [] []) 10 70)
    [] []
    (by rw [boxes_eq]; exact List.mem_cons_self _ _)
    (by rfl)).2.2 (by decide)

/-- Claim C10 as stated fails at the limit of `int`: the two children of
`sample.tallDiv`, laid out at (0, 0), are at `Y = 2^63 - 1` with height 20 and at
`Y = -2^63 + 19`, so the second is not at or below `c1.Y + c1.Height = 2^63 + 19`. -/
theorem siblings_overlap_at_int_limit :
    (renderElement sample.tallDiv 0 0).Children
      = [renderElement (.mk "p".toList [] [] [] [] []) 10 9223372036854775807,
         renderElement (.mk "p".toList [] [] [] [] []) 10 (-9223372036854775789)] ∧
    (renderElement (.mk "p".toList [] [] [] [] []) 10 9223372036854775807).Y
      = 9223372036854775807 ∧
    (renderElement (.mk "p".toList [] [] [] [] []) 10 9223372036854775807).Height = 20 ∧
    (renderElement (.mk "p".toList [] [] [] [] []) 10 (-9223372036854775789)).Y
      = -9223372036854775789 ∧
    ¬ ((renderElement (.mk "p".toList [] [] [] [] []) 10 (-9223372036854775789)).Y
        ≥ (renderElement (.mk "p".toList [] [] [] [] []) 10 9223372036854775807).Y
          + (renderElement (.mk "p".toList [] [] [] [] []) 10 9223372036854775807).Height) := by
  refine ⟨by rfl, ?_, ?_, ?_, ?_⟩ <;> decide

/-- The layout arithmetic at the limit of `int`: the children of `sample.tallDiv`
are at `Y = 2^63 - 1` (height 20) and `Y = -2^63 + 19`, which is the value of the Go
expression `c1.Y + c1.Height`. -/
theorem tallDiv_children_wrap :
    (renderElement sample.tallDiv 0 0).Children.map (fun c => (c.Y, c.Height))
      = [(9223372036854775807, 20), (-9223372036854775789, 20)] ∧
    wrapInt (9223372036854775807 + 20) = -9223372036854775789 := by
  constructor
  · decide
  · decide

end renderer

/-! ## The claims on the parser: fallbacks and skeleton -/

namespace strings

theorem Index_eq_neg_one (s substr : GoString) (h : ¬ substr <:+: s) :
    Index s substr = -1 := by
  rcases Index_spec s substr with ⟨h1, -⟩ | ⟨k, -, -, hp, -⟩
  · exact h1
  · exact absurd (hp.isInfix.trans (List.drop_suffix k s).isInfix) h

end strings

namespace html

/-- Claim C13: on every input containing neither `<title>` nor `<body`, `Parse` returns
a document and a nil error, the title is the fixed placeholder, which is not empty,
and the text of the body element (the second child of `html`, also behind `BodyElem`)
is the entire input. -/
theorem Parse_fallbacks (htmlContent : GoString)
    (ht : ¬ "<title>".toList <:+: htmlContent)
    (hb : ¬ "<body".toList <:+: htmlContent) :
    ∃ doc, Parse htmlContent = .ok (doc, none) ∧
      doc.Title = defaultTitle ∧ defaultTitle ≠ [] ∧
      doc.Body = htmlContent ∧
      doc.Elements = [.mk "html".toList []
        [.mk "head".toList [] [] [] [] [], .mk "body".toList [] [] htmlContent [] []]
        [] [] []] ∧
      doc.BodyElem.map Element.Text = some htmlContent := by
  have h1 : parseTitle htmlContent = .ok defaultTitle := by
    unfold parseTitle
    dsimp only
    rw [strings.Index_eq_neg_one _ _ ht]
    simp
  have h2 : parseBody htmlContent = .ok htmlContent := by
    unfold parseBody
    dsimp only
    rw [strings.Index_eq_neg_one _ _ hb]
    simp
  rw [Parse, h1, h2]
  exact ⟨_, rfl, rfl, by decide, rfl, rfl, rfl⟩

/-- Claim C13 on the empty input: `Parse("")` yields the default title and an empty
body. -/
theorem Parse_fallbacks_witness :
    ∃ doc, Parse [] = .ok (doc, none) ∧ doc.Title = defaultTitle ∧ doc.Body = [] ∧
      doc.BodyElem.map Element.Text = some [] :=
  match Parse_fallbacks [] (by simp [List.IsInfix]) (by simp [List.IsInfix]) with
  | ⟨doc, h1, h2, _, h4, _, h6⟩ => ⟨doc, h1, h2, h4, h6⟩

/-- The top-level elements of a document `Parse` returns. -/
theorem Parse_elements (htmlContent : GoString) (r : Document × Option GoError)
    (h : Parse htmlContent = .ok r) :
    r.1.Elements = [.mk "html".toList []
      [.mk "head".toList [] [] [] [] [], .mk "body".toList [] [] r.1.Body [] []]
      [] [] []] := by
  unfold Parse at h
  cases ht : parseTitle htmlContent with
  | error p => simp [ht] at h
  | ok title =>
    cases hb : parseBody htmlContent with
    | error p => simp [ht, hb] at h
    | ok bodyText =>
      simp only [ht, hb] at h
      cases h
      rfl

/-- Claim C14: for every input on which `Parse` returns, the document has exactly one
top-level element, with tag `html`, whose children are a childless `head` element
followed by a childless `body` element; the text of that `body` child is the
extracted body region `Document.Body`; `Head` and `BodyElem` point to elements with
the same tag, text and (empty) attributes as those two children. -/
theorem Parse_skeleton (htmlContent : GoString) (r : Document × Option GoError)
    (h : Parse htmlContent = .ok r) :
    r.1.Elements = [.mk "html".toList []
      [.mk "head".toList [] [] [] [] [], .mk "body".toList [] [] r.1.Body [] []]
      [] [] []] ∧
    r.1.Head = some (.mk "head".toList [] [] [] [] []) ∧
    r.1.BodyElem = some (.mk "body".toList [] [] r.1.Body [] []) ∧
    r.2 = none := by
  unfold Parse at h
  cases ht : parseTitle htmlContent with
  | error p => simp [ht] at h
  | ok title =>
    cases hb : parseBody htmlContent with
    | error p => simp [ht, hb] at h
    | ok bodyText =>
      simp only [ht, hb] at h
      cases h
      exact ⟨rfl, rfl, rfl, rfl⟩

/-- Claim C14 on the input `<body class=x>Hi</body>`. -/
theorem Parse_skeleton_witness :
    (Parse "<body class=x>Hi</body>".toList).toOption.map (fun r => r.1.Elements)
      = some [.mk "html".toList []
          [.mk "head".toList [] [] [] [] [], .mk "body".toList [] [] "Hi".toList [] []]
          [] [] []] :=
  have h := Parse_skeleton "<body class=x>Hi</body>".toList
    ({ Title := defaultTitle, Body := "Hi".toList,
       Elements := [.mk "html".toList []
          [.mk "head".toList [] [] [] [] [], .mk "body".toList [] [] "Hi".toList [] []]
          [] [] []],
       Head := some (.mk "head".toList [] [] [] [] []),
       BodyElem := some (.mk "body".toList [] [] "Hi".toList [] []) }, none) (by rfl)
  by rw [show Parse "<body class=x>Hi</body>".toList = .ok _ from (by rfl)]; exact congrArg some h.1

end html

/-! ## The claims on the navigation session: position after a successful navigation -/

namespace browser

theorem GoForward_nil {V : Type} (host : Host V) (b b' : Browser V)
    (env : network.FetchEnv) (h : GoForward host b env = (.nil, b')) :
    b.historyPos < (b.history.length : Int) - 1 ∧
    ∃ url, indexExpr b.history (b.historyPos + 1) = .ok url ∧
      b'.history = b.history.take (b.historyPos + 1 + 1).toNat ++ [url] ∧
      b'.historyPos = (b'.history.length : Int) - 1 ∧
      b'.currentURL = url ∧
      b'.currentPage.map (fun p => p.URL) = some url := by
  unfold GoForward at h
  by_cases h0 : b.historyPos ≥ (b.history.length : Int) - 1
  · rw [if_pos h0] at h
    cases h
  · rw [if_neg h0] at h
    simp only at h
    cases hu : indexExpr b.history (b.historyPos + 1) with
    | error p =>
      rw [hu] at h
      cases h
    | ok url =>
      rw [hu] at h
      simp only at h
      have := LoadURL_nil host _ b' url env h
      exact ⟨by omega, url, rfl, this.2.1, this.2.2.1, this.2.2.2.1, this.2.2.2.2⟩

/-- Claim C20: whenever `LoadURL`, `GoBack` or `GoForward` returns nil (for the last two:
the call is within bounds and its inner `LoadURL` succeeds), the resulting state has
`historyPos == len(history)-1` and `CanGoForward()` false; a successful `GoBack` from
position `p` ends at position `p`, not `p-1`, with the history made of the first `p`
entries followed by a second copy of entry `p-1`, which is the current URL. -/
theorem successful_navigation_ends_at_tail {V : Type} (host : Host V) (b b' : Browser V)
    (env : network.FetchEnv) (url : GoString) :
    (LoadURL host b url env = (.nil, b') →
      b'.historyPos = (b'.history.length : Int) - 1 ∧ CanGoForward b' = false) ∧
    (GoForward host b env = (.nil, b') →
      b'.historyPos = (b'.history.length : Int) - 1 ∧ CanGoForward b' = false) ∧
    (GoBack host b env = (.nil, b') →
      b'.historyPos = (b'.history.length : Int) - 1 ∧ CanGoForward b' = false ∧
      b'.historyPos = b.historyPos ∧ b'.historyPos ≠ b.historyPos - 1 ∧
      ∃ entry, b.history[(b.historyPos - 1).toNat]? = some entry ∧
        b'.history = b.history.take b.historyPos.toNat ++ [entry] ∧
        b'.currentURL = entry) := by
  refine ⟨?_, ?_, ?_⟩
  · intro h
    have hp := (LoadURL_nil host b b' url env h).2.2.1
    exact ⟨hp, by simp [CanGoForward, hp]⟩
  · intro h
    obtain ⟨-, u, -, -, hp, -, -⟩ := GoForward_nil host b b' env h
    exact ⟨hp, by simp [CanGoForward, hp]⟩
  · intro h
    obtain ⟨h0, u, hu, hh, hp, hc, -⟩ := GoBack_nil host b b' env h
    rw [indexExpr_ok] at hu
    have hlt : (b.historyPos - 1).toNat < b.history.length := by
      rcases List.getElem?_eq_some_iff.mp hu.2 with ⟨hl, -⟩
      exact hl
    have ht : (b.historyPos - 1 + 1).toNat = b.historyPos.toNat := by
      congr 1
      omega
    rw [ht] at hh
    have hlen : (b.history.take b.historyPos.toNat).length = b.historyPos.toNat := by
      rw [List.length_take]
      omega
    have hpos : b'.historyPos = b.historyPos := by
      rw [hp, hh]
      simp only [List.length_append, List.length_singleton, Nat.cast_add, Nat.cast_one, hlen]
      omega
    refine ⟨hp, by simp [CanGoForward, hp], hpos, by omega, u, hu.2, hh, hc⟩

/-- Claim C20 on the session that loaded `a`, `b`, `c` (position 2): `GoBack()` ends at
position 2 with the history `a, b, b`. -/
theorem successful_navigation_ends_at_tail_witness :
    (sample.session [sample.loadOk "a".toList, sample.loadOk "b".toList,
      sample.loadOk "c".toList, sample.backOk]).historyPos = 2 ∧
    (sample.session [sample.loadOk "a".toList, sample.loadOk "b".toList,
      sample.loadOk "c".toList, sample.backOk]).history
        = ["a".toList, "b".toList, "b".toList] ∧
    CanGoForward (sample.session [sample.loadOk "a".toList, sample.loadOk "b".toList,
      sample.loadOk "c".toList, sample.backOk]) = false :=
  have h := (successful_navigation_ends_at_tail sample.plainHost
    (sample.session [sample.loadOk "a".toList, sample.loadOk "b".toList,
      sample.loadOk "c".toList])
    (sample.session [sample.loadOk "a".toList, sample.loadOk "b".toList,
      sample.loadOk "c".toList, sample.backOk])
    (sample.okEnv 0 []) []).2.2 (by rfl)
  ⟨h.2.2.1, by rfl, h.2.1⟩

end browser

/-! ## The claims on the layout: child positions and height -/

namespace renderer

namespace RenderedElement

@[simp] theorem X_setChildren (r : RenderedElement) (v : List RenderedElement) :
    (r.setChildren v).X = r.X := by cases r; rfl

@[simp] theorem X_setHeight (r : RenderedElement) (v : Int) :
    (r.setHeight v).X = r.X := by cases r; rfl

@[simp] theorem X_setWidth (r : RenderedElement) (v : Int) :
    (r.setWidth v).X = r.X := by cases r; rfl

@[simp] theorem X_setColor (r : RenderedElement) (v : GoString) :
    (r.setColor v).X = r.X := by cases r; rfl

@[simp] theorem X_setBackground (r : RenderedElement) (v : GoString) :
    (r.setBackground v).X = r.X := by cases r; rfl

@[simp] theorem TagName_setChildren (r : RenderedElement) (v : List RenderedElement) :
    (r.setChildren v).TagName = r.TagName := by cases r; rfl

@[simp] theorem TagName_setHeight (r : RenderedElement) (v : Int) :
    (r.setHeight v).TagName = r.TagName := by cases r; rfl

@[simp] theorem TagName_setWidth (r : RenderedElement) (v : Int) :
    (r.setWidth v).TagName = r.TagName := by cases r; rfl

@[simp] theorem TagName_setColor (r : RenderedElement) (v : GoString) :
    (r.setColor v).TagName = r.TagName := by cases r; rfl

@[simp] theorem TagName_setBackground (r : RenderedElement) (v : GoString) :
    (r.setBackground v).TagName = r.TagName := by cases r; rfl

@[simp] theorem Text_setChildren (r : RenderedElement) (v : List RenderedElement) :
    (r.setChildren v).Text = r.Text := by cases r; rfl

@[simp] theorem Text_setHeight (r : RenderedElement) (v : Int) :
    (r.setHeight v).Text = r.Text := by cases r; rfl

@[simp] theorem Text_setWidth (r : RenderedElement) (v : Int) :
    (r.setWidth v).Text = r.Text := by cases r; rfl

@[simp] theorem Text_setColor (r : RenderedElement) (v : GoString) :
    (r.setColor v).Text = r.Text := by cases r; rfl

@[simp] theorem Text_setBackground (r : RenderedElement) (v : GoString) :
    (r.setBackground v).Text = r.Text := by cases r; rfl

end RenderedElement

theorem applyStyle_keeps (element : RenderedElement) (style : GoString) :
    (applyStyle element style).TagName = element.TagName ∧
    (applyStyle element style).Text = element.Text ∧
    (applyStyle element style).X = element.X := by
  unfold applyStyle
  split
  · dsimp only
    split_ifs <;> (try split) <;> simp
  · simp

theorem applyStyles_keeps (styleStr : GoString) (element : RenderedElement) :
    (applyStyles element styleStr).TagName = element.TagName ∧
    (applyStyles element styleStr).Text = element.Text ∧
    (applyStyles element styleStr).X = element.X := by
  unfold applyStyles
  generalize strings.Split styleStr ';' = styles
  induction styles generalizing element with
  | nil => simp
  | cons style styles ih =>
    rw [List.foldl_cons]
    have h1 := ih (applyStyle element style)
    have h2 := applyStyle_keeps element style
    exact ⟨h1.1.trans h2.1, h1.2.1.trans h2.2.1, h1.2.2.trans h2.2.2⟩

theorem styledBox_fields (e : html.Element) (x y : Int) :
    (styledBox e x y).TagName = e.TagName ∧ (styledBox e x y).Text = e.Text ∧
    (styledBox e x y).X = x ∧ (styledBox e x y).Y = y ∧
    (styledBox e x y).Children = [] := by
  unfold styledBox
  dsimp only
  split
  · have h1 := applyStyles_keeps ‹GoString›
      (RenderedElement.mk e.TagName e.Text x y 100 20 "#000000".toList "#FFFFFF".toList [])
    have h2 := applyStyles_frame ‹GoString›
      (RenderedElement.mk e.TagName e.Text x y 100 20 "#000000".toList "#FFFFFF".toList [])
    exact ⟨h1.1, h1.2.1, h1.2.2, h2.2, h2.1⟩
  · exact ⟨rfl, rfl, rfl, rfl, rfl⟩

theorem styledBox_default (e : html.Element) (x y : Int)
    (h : e.Attributes.lookup "style".toList = none) :
    styledBox e x y = RenderedElement.mk e.TagName e.Text x y 100 20
      "#000000".toList "#FFFFFF".toList [] := by
  unfold styledBox
  rw [h]

theorem renderElement_eq (e : html.Element) (x y : Int) :
    renderElement e x y =
      match (renderChildren e.Children (wrapInt (x + 10)) y (styledBox e x y).Height).getLast? with
      | some lastChild =>
        ((styledBox e x y).setChildren
          (renderChildren e.Children (wrapInt (x + 10)) y (styledBox e x y).Height)).setHeight
          (wrapInt (wrapInt (lastChild.Y - y) + lastChild.Height))
      | none => (styledBox e x y).setChildren
          (renderChildren e.Children (wrapInt (x + 10)) y (styledBox e x y).Height) := by
  obtain ⟨t, a, c, txt, i, k⟩ := e
  have hs := (styledBox_fields (.mk t a c txt i k) x y).2.2.2.2
  have hdef : (match a.lookup "style".toList with
      | some style => applyStyles
          (RenderedElement.mk t txt x y 100 20 "#000000".toList "#FFFFFF".toList []) style
      | none => RenderedElement.mk t txt x y 100 20 "#000000".toList "#FFFFFF".toList [])
      = styledBox (.mk t a c txt i k) x y := rfl
  unfold renderElement
  simp only [html.Element.Children]
  rw [hdef, hs]
  simp only [List.nil_append, RenderedElement.Children_setChildren]

theorem renderElement_fields (e : html.Element) (x y : Int) :
    (renderElement e x y).TagName = e.TagName ∧ (renderElement e x y).Text = e.Text ∧
    (renderElement e x y).X = x ∧
    (renderElement e x y).Children
      = renderChildren e.Children (wrapInt (x + 10)) y (styledBox e x y).Height := by
  have hs := styledBox_fields e x y
  rw [renderElement_eq]
  split
  · simp [hs.1, hs.2.1, hs.2.2.1]
  · simp [hs.1, hs.2.1, hs.2.2.1]

theorem renderChildren_fields : ∀ (cs : List html.Element) (childX currentY height : Int),
    (renderChildren cs childX currentY height).map (fun c => (c.TagName, c.Text))
      = cs.map (fun c => (c.TagName, c.Text)) ∧
    (∀ c ∈ renderChildren cs childX currentY height, c.X = childX) ∧
    (∀ first, (renderChildren cs childX currentY height).head? = some first →
      first.Y = wrapInt (currentY + height))
  | [], _, _, _ => by
    rw [renderChildren]
    simp
  | child :: rest, childX, currentY, height => by
    rw [renderChildren]
    have ih := renderChildren_fields rest childX
      (wrapInt (currentY + (renderElement child childX (wrapInt (currentY + height))).Height))
      height
    have hc := renderElement_fields child childX (wrapInt (currentY + height))
    refine ⟨?_, ?_, ?_⟩
    · simp only [List.map_cons, ih.1, hc.1, hc.2.1]
    · intro c hmem
      rcases List.mem_cons.mp hmem with rfl | hmem
      · exact hc.2.2.1
      · exact ih.2.1 c hmem
    · intro first hfirst
      simp only [List.head?_cons, Option.some.injEq] at hfirst
      rw [← hfirst]
      exact (renderElement_shape child _ _).1

/-- Claim C17, amended: for every element laid out at (x, y), every child box has
`X == x + 10` and the first child's `Y` is `y` plus the parent's own height after its
inline style is applied (20 when there is no style attribute), both sums as Go takes
them on `int`, wrapping around at 64 bits; when a sum does not leave the 64-bit range
the field is that integer; and the children of the box are those of the element, in
document order, with the same tag names and text. -/
theorem child_positioning (e : html.Element) (x y : Int) :
    (renderElement e x y).Children.map (fun c => (c.TagName, c.Text))
      = e.Children.map (fun c => (c.TagName, c.Text)) ∧
    (∀ c ∈ (renderElement e x y).Children, c.X = wrapInt (x + 10)) ∧
    (∀ first, (renderElement e x y).Children.head? = some first →
      first.Y = wrapInt (y + (styledBox e x y).Height)) ∧
    (e.Attributes.lookup "style".toList = none → (styledBox e x y).Height = 20) ∧
    (-(2 ^ 63) ≤ x + 10 ∧ x + 10 < 2 ^ 63 →
      ∀ c ∈ (renderElement e x y).Children, c.X = x + 10) ∧
    (-(2 ^ 63) ≤ y + (styledBox e x y).Height ∧ y + (styledBox e x y).Height < 2 ^ 63 →
      ∀ first, (renderElement e x y).Children.head? = some first →
        first.Y = y + (styledBox e x y).Height) := by
  have hf := renderElement_fields e x y
  have hc := renderChildren_fields e.Children (wrapInt (x + 10)) y (styledBox e x y).Height
  rw [hf.2.2.2]
  refine ⟨hc.1, hc.2.1, hc.2.2, ?_, ?_, ?_⟩
  · intro h
    rw [styledBox_default e x y h]
    rfl
  · rintro ⟨h0, h1⟩ c hmem
    rw [hc.2.1 c hmem, wrapInt_of_inRange _ h0 h1]
  · rintro ⟨h0, h1⟩ first hfirst
    rw [hc.2.2 first hfirst, wrapInt_of_inRange _ h0 h1]

/-- Claim C17, amended, on `sample.styledDiv` (own styled height 30) laid out at (0, 0): its
first child, a `p`, is at `X = 10` and `Y = 30`. -/
theorem child_positioning_witness :
    (renderElement (.mk "p".toList [] [.mk "b".toList [] [] [] [] []] [] [] []) 10 30).X
      = 0 + 10 ∧
    (renderElement (.mk "p".toList [] [.mk "b".toList [] [] [] [] []] [] [] []) 10 30).Y
      = 0 + (styledBox sample.styledDiv 0 0).Height ∧
    (styledBox sample.styledDiv 0 0).Height = 30 :=
  have h := child_positioning sample.styledDiv 0 0
  ⟨h.2.2.2.2.1 (by decide) _
      (by
        rw [show (renderElement sample.styledDiv 0 0).Children
          = [renderElement (.mk "p".toList [] [.mk "b".toList [] [] [] [] []] [] [] []) 10 30,
             renderElement (.mk "p".toList [("style".toList, "color:red;width:50px".toList)]
               [] [] [] []) 10 70] from by rfl]
        exact List.mem_cons_self _ _),
   h.2.2.2.2.2 (by decide) _ (by rfl),
   by decide⟩

/-- Claim C17 as stated fails at the limit of `int`: in the layout of
`sample.tallNest` from (0, 0) the child `p` is laid out at (10, `2^63 - 1`); its own
height is 20 and its first child is at `Y = -2^63 + 19`, not at `y + 20`. -/
theorem first_child_wraps_at_int_limit :
    (renderElement sample.tallNest 0 0).Children
      = [renderElement (.mk "p".toList [] [.mk "b".toList [] [] [] [] []] [] [] [])
          10 9223372036854775807] ∧
    (styledBox (.mk "p".toList [] [.mk "b".toList [] [] [] [] []] [] [] [])
        10 9223372036854775807).Height = 20 ∧
    (renderElement (.mk "p".toList [] [.mk "b".toList [] [] [] [] []] [] [] [])
        10 9223372036854775807).Children.map (fun c => c.Y) = [-9223372036854775789] ∧
    ¬ ∀ first,
      (renderElement (.mk "p".toList [] [.mk "b".toList [] [] [] [] []] [] [] [])
          10 9223372036854775807).Children.head? = some first →
        first.Y = 9223372036854775807
          + (styledBox (.mk "p".toList [] [.mk "b".toList [] [] [] [] []] [] [] [])
              10 9223372036854775807).Height := by
  refine ⟨by rfl, by decide, by decide, ?_⟩
  intro h
  have h1 := h (renderElement (.mk "b".toList [] [] [] [] []) 20 (-9223372036854775789))
    (by rfl)
  revert h1
  decide

theorem wrapInt_sub_add (a b y : Int) :
    wrapInt (wrapInt (a - y) + b) = wrapInt (wrapInt (a + b) - y) := by
  rw [wrapInt_add_wrapInt_left, sub_eq_add_neg (wrapInt (a + b)), wrapInt_add_wrapInt_left]
  congr 1
  ring

/-- Claim C18, amended: for every element laid out at (x, y) with at least one child,
the final `Height` of its box is `(lastChild.Y + lastChild.Height) - y` (as Go
computes it on `int`); for every element with no children the `Height` is the one the
box has after the inline style is applied: the default 20 when there is no style
attribute, the styled height otherwise. -/
theorem height_recomputation (e : html.Element) (x y : Int) :
    (∀ lastChild, (renderElement e x y).Children.getLast? = some lastChild →
      (renderElement e x y).Height
        = wrapInt (wrapInt (lastChild.Y + lastChild.Height) - y)) ∧
    (e.Children = [] → (renderElement e x y).Height = (styledBox e x y).Height) ∧
    (e.Children = [] → e.Attributes.lookup "style".toList = none →
      (renderElement e x y).Height = 20) := by
  have hf := renderElement_fields e x y
  have hnil : e.Children = [] → (renderElement e x y).Height = (styledBox e x y).Height := by
    intro h
    rw [renderElement_eq, h, renderChildren]
    simp
  refine ⟨?_, hnil, ?_⟩
  · intro lastChild hl
    rw [hf.2.2.2] at hl
    rw [renderElement_eq, hl]
    simp only [RenderedElement.Height_setHeight]
    exact wrapInt_sub_add _ _ _
  · intro h hs
    rw [hnil h, styledBox_default e x y hs]
    rfl

/-- Claim C18 on `sample.styledDiv` at (0, 0), whose last child is at `Y = 70` with
height 20: the height is 90; and on its childless first grandchild `b`: height 20. -/
theorem height_recomputation_witness :
    (renderElement sample.styledDiv 0 0).Height = 90 ∧
    (renderElement (.mk "b".toList [] [] [] [] []) 20 50).Height = 20 :=
  ⟨((height_recomputation sample.styledDiv 0 0).1
      (renderElement (.mk "p".toList [("style".toList, "color:red;width:50px".toList)]
        [] [] [] []) 10 70) (by rfl)).trans (by decide),
   (height_recomputation (.mk "b".toList [] [] [] [] []) 20 50).2.2 rfl rfl⟩

/-- Claim C18 as stated fails on `sample.tallParagraph`, a childless element whose
style is `height:50px`: its box has height 50, not the default 20. -/
theorem childless_height_not_default :
    sample.tallParagraph.Children = [] ∧
    (renderElement sample.tallParagraph 0 0).Height = 50 ∧
    ¬ (renderElement sample.tallParagraph 0 0).Height = 20 := by
  refine ⟨rfl, by decide, by decide⟩

end renderer

/-! ## The claim on the cache of the network manager -/

namespace network

theorem lookup_mapSet {β : Type} (m : List (GoString × β)) (key : GoString) (value : β) :
    (mapSet m key value).lookup key = some value := by
  simp [mapSet, List.lookup]

end network

/-! ## The claim on inline styles -/

namespace strings

theorem Split_of_not_mem (sep : Char) : ∀ s : GoString, sep ∉ s → Split s sep = [s]
  | [], _ => rfl
  | c :: cs, h => by
    have hc : c ≠ sep := fun e => h (e ▸ List.mem_cons_self _ _)
    have ih := Split_of_not_mem sep cs (fun hm => h (List.mem_cons_of_mem _ hm))
    rw [Split, if_neg hc, ih]

theorem Split_append (sep : Char) (b : GoString) : ∀ a : GoString, sep ∉ a →
    Split (a ++ sep :: b) sep = a :: Split b sep
  | [], _ => by
    rw [List.nil_append, Split, if_pos rfl]
  | c :: a, h => by
    have hc : c ≠ sep := fun e => h (e ▸ List.mem_cons_self _ _)
    have ih := Split_append sep b a (fun hm => h (List.mem_cons_of_mem _ hm))
    rw [List.cons_append, Split, if_neg hc, ih]

theorem dropWhile_IsSpace_id (s : GoString)
    (h : ∀ ch, s.head? = some ch → IsSpace ch = false) : s.dropWhile IsSpace = s := by
  cases s with
  | nil => rfl
  | cons c cs =>
    have hc := h c rfl
    rw [List.dropWhile_cons, hc]
    rfl

theorem TrimSpace_id (s : GoString)
    (hhead : ∀ ch, s.head? = some ch → IsSpace ch = false)
    (hlast : ∀ ch, s.getLast? = some ch → IsSpace ch = false) : TrimSpace s = s := by
  unfold TrimSpace
  rw [dropWhile_IsSpace_id s hhead, dropWhile_IsSpace_id s.reverse, List.reverse_reverse]
  intro ch hch
  rw [List.head?_reverse] at hch
  exact hlast ch hch

end strings

namespace fmt

theorem isDigit_iff (c : Char) : c.isDigit = true ↔ 48 ≤ c.toNat ∧ c.toNat ≤ 57 := by
  simp only [Char.isDigit, Bool.and_eq_true, decide_eq_true_eq]
  exact Iff.rfl

theorem isDigit_not_special (c : Char) (h : c.isDigit = true) :
    strings.IsSpace c = false ∧ c ≠ '\n' ∧ c ≠ '+' ∧ c ≠ '-' ∧ c ≠ ':' ∧ c ≠ ';' := by
  rw [isDigit_iff] at h
  refine ⟨?_, ?_, ?_, ?_, ?_, ?_⟩
  · unfold strings.IsSpace
    simp only [Bool.or_eq_false_iff, Bool.and_eq_false_imp, decide_eq_true_eq,
      decide_eq_false_iff_not]
    omega
  all_goals
    rintro rfl
    revert h
    decide

theorem digitChar_isDigit (n : Nat) (h : n < 10) :
    (Nat.digitChar n).isDigit = true ∧ (Nat.digitChar n).toNat - 48 = n := by
  interval_cases n <;> exact ⟨by decide, by decide⟩

theorem digitsValue_append (xs ds : GoString) :
    digitsValue (xs ++ ds)
      = ds.foldl (fun acc c => 10 * acc + (c.toNat - 48)) (digitsValue xs) := by
  unfold digitsValue
  rw [List.foldl_append]

theorem toDigitsCore_append : ∀ (fuel n : Nat) (ds : List Char),
    Nat.toDigitsCore 10 fuel n ds = Nat.toDigitsCore 10 fuel n [] ++ ds
  | 0, _, ds => by simp [Nat.toDigitsCore]
  | fuel + 1, n, ds => by
    simp only [Nat.toDigitsCore]
    split_ifs with h
    · rfl
    · rw [toDigitsCore_append fuel (n / 10) (Nat.digitChar (n % 10) :: ds),
        toDigitsCore_append fuel (n / 10) [Nat.digitChar (n % 10)]]
      simp

theorem toDigitsCore_spec : ∀ (fuel n : Nat), n < fuel →
    (∀ c ∈ Nat.toDigitsCore 10 fuel n [], c.isDigit = true) ∧
    Nat.toDigitsCore 10 fuel n [] ≠ [] ∧
    digitsValue (Nat.toDigitsCore 10 fuel n []) = n
  | 0, _, h => absurd h (Nat.not_lt_zero _)
  | fuel + 1, n, h => by
    have hd := digitChar_isDigit (n % 10) (Nat.mod_lt _ (by decide))
    simp only [Nat.toDigitsCore]
    split_ifs with h0
    · refine ⟨by simpa using hd.1, by simp, ?_⟩
      have hn : n % 10 = n := by omega
      have hd2 := hd.2
      rw [hn] at hd2
      simp [digitsValue, hn, hd2]
    · have hlt : n / 10 < fuel := by omega
      obtain ⟨i1, i2, i3⟩ := toDigitsCore_spec fuel (n / 10) hlt
      rw [toDigitsCore_append]
      refine ⟨?_, ?_, ?_⟩
      · intro c hc
        rcases List.mem_append.mp hc with hc | hc
        · exact i1 c hc
        · rw [List.mem_singleton] at hc
          rw [hc]
          exact hd.1
      · simp
      · rw [digitsValue_append, i3]
        simp only [List.foldl_cons, List.foldl_nil, hd.2]
        omega

theorem toDigits_spec (n : Nat) :
    (∀ c ∈ Nat.toDigits 10 n, c.isDigit = true) ∧ Nat.toDigits 10 n ≠ [] ∧
    digitsValue (Nat.toDigits 10 n) = n :=
  toDigitsCore_spec (n + 1) n (Nat.lt_succ_self n)

theorem toDigits_length (n : Nat) (h : n < 2 ^ 63) : (Nat.toDigits 10 n).length ≤ 19 := by
  exact Nat.repr_length n 19 (by decide) (lt_of_lt_of_le h (by norm_num))

/-- `Sscanf` reads back a number below `2^63` from its decimal digits. -/
theorem Sscanf_d_toDigits (n : Nat) (h : n < 2 ^ 63) :
    Sscanf_d (Nat.toDigits 10 n) = some (n : Int) := by
  obtain ⟨hall, hne, hval⟩ := toDigits_spec n
  have hlen := toDigits_length n h
  unfold Sscanf_d
  rw [List.take_of_length_le (le_trans hlen (by decide))]
  cases hd : Nat.toDigits 10 n with
  | nil => exact absurd hd hne
  | cons c cs =>
    rw [hd] at hall hval
    have hc := isDigit_not_special c (hall c (List.mem_cons_self _ _))
    have hskip : SkipSpace (c :: cs) = some (c :: cs) := by
      rw [SkipSpace, if_neg hc.2.1, hc.1]
      rfl
    rw [hskip]
    have hsign : Sscanf_d.match_2 (fun _ => Bool × List Char) (c :: cs)
        (fun t => (false, t)) (fun t => (true, t)) (fun t => (false, t))
        = (false, c :: cs) := by
      unfold Sscanf_d.match_2
      simp [hc.2.2.1, hc.2.2.2.1]
    simp only [hsign]
    rw [List.takeWhile_eq_self_iff.mpr hall]
    simp only [hval, Bool.false_eq_true, if_false]
    rw [if_pos]
    constructor
    · omega
    · exact_mod_cast h

end fmt

namespace renderer

theorem applyStyle_color (element : RenderedElement) (c : GoString) (hc : ':' ∉ c)
    (hhead : ∀ ch, c.head? = some ch → strings.IsSpace ch = false)
    (hlast : ∀ ch, c.getLast? = some ch → strings.IsSpace ch = false) :
    applyStyle element ("color:".toList ++ c) = element.setColor c := by
  have hsplit : strings.Split ("color:".toList ++ c) ':' = ["color".toList, c] := by
    have : "color:".toList ++ c = "color".toList ++ ':' :: c := rfl
    rw [this, strings.Split_append ':' c "color".toList (by decide),
      strings.Split_of_not_mem ':' c hc]
  unfold applyStyle
  rw [hsplit]
  simp only
  rw [strings.TrimSpace_id c hhead hlast,
    show strings.TrimSpace "color".toList = "color".toList from by decide, if_pos rfl]

theorem applyStyle_width (element : RenderedElement) (n : Nat) (hn : n < 2 ^ 63) :
    applyStyle element ("width:".toList ++ (Nat.toDigits 10 n ++ "px".toList))
      = element.setWidth (n : Int) := by
  obtain ⟨hall, hne, -⟩ := fmt.toDigits_spec n
  have hnc : ':' ∉ Nat.toDigits 10 n ++ "px".toList := by
    intro hm
    rcases List.mem_append.mp hm with hm | hm
    · exact (fmt.isDigit_not_special _ (hall _ hm)).2.2.2.2.1 rfl
    · revert hm
      decide
  have hsplit : strings.Split ("width:".toList ++ (Nat.toDigits 10 n ++ "px".toList)) ':'
      = ["width".toList, Nat.toDigits 10 n ++ "px".toList] := by
    have : "width:".toList ++ (Nat.toDigits 10 n ++ "px".toList)
        = "width".toList ++ ':' :: (Nat.toDigits 10 n ++ "px".toList) := rfl
    rw [this, strings.Split_append ':' _ "width".toList (by decide),
      strings.Split_of_not_mem ':' _ hnc]
  have htrim : strings.TrimSpace (Nat.toDigits 10 n ++ "px".toList)
      = Nat.toDigits 10 n ++ "px".toList := by
    apply strings.TrimSpace_id
    · intro ch hch
      cases hd : Nat.toDigits 10 n with
      | nil => exact absurd hd hne
      | cons d ds =>
        rw [hd] at hch hall
        simp only [List.cons_append, List.head?_cons, Option.some.injEq] at hch
        rw [← hch]
        exact (fmt.isDigit_not_special d (hall d (List.mem_cons_self _ _))).1
    · intro ch hch
      rw [List.getLast?_append] at hch
      have : "px".toList.getLast? = some 'x' := by decide
      rw [this] at hch
      simp only [Option.or_some, Option.some.injEq] at hch
      rw [← hch]
      decide
  have hsuffix : strings.HasSuffix (Nat.toDigits 10 n ++ "px".toList) "px".toList = true := by
    unfold strings.HasSuffix
    rw [List.reverse_append, List.isPrefixOf_iff_prefix]
    exact List.prefix_append _ _
  have htake : strings.TrimSuffix (Nat.toDigits 10 n ++ "px".toList) "px".toList
      = Nat.toDigits 10 n := by
    unfold strings.TrimSuffix
    rw [if_pos hsuffix, List.length_append]
    have : ("px".toList).length = 2 := by decide
    rw [this, Nat.add_sub_cancel, List.take_left']
    rfl
  unfold applyStyle
  rw [hsplit]
  simp only
  rw [htrim, show strings.TrimSpace "width".toList = "width".toList from by decide,
    if_neg (by decide), if_neg (by decide), if_pos rfl, if_pos hsuffix, htake,
    fmt.Sscanf_d_toDigits n hn]

theorem applyStyles_color_width (element : RenderedElement) (c : GoString) (n : Nat)
    (hn : n < 2 ^ 63) (hc1 : ':' ∉ c) (hc2 : ';' ∉ c)
    (hhead : ∀ ch, c.head? = some ch → strings.IsSpace ch = false)
    (hlast : ∀ ch, c.getLast? = some ch → strings.IsSpace ch = false) :
    applyStyles element
      ("color:".toList ++ c ++ ";width:".toList ++ Nat.toDigits 10 n ++ "px".toList)
      = (element.setColor c).setWidth (n : Int) := by
  obtain ⟨hall, -, -⟩ := fmt.toDigits_spec n
  have hform : "color:".toList ++ c ++ ";width:".toList ++ Nat.toDigits 10 n ++ "px".toList
      = ("color:".toList ++ c) ++ ';' ::
          ("width:".toList ++ (Nat.toDigits 10 n ++ "px".toList)) := by
    have : ";width:".toList = ';' :: "width:".toList := rfl
    rw [this]
    simp only [List.append_assoc, List.cons_append]
  have h1 : ';' ∉ "color:".toList ++ c := by
    intro hm
    rcases List.mem_append.mp hm with hm | hm
    · revert hm
      decide
    · exact hc2 hm
  have h2 : ';' ∉ "width:".toList ++ (Nat.toDigits 10 n ++ "px".toList) := by
    intro hm
    rcases List.mem_append.mp hm with hm | hm
    · revert hm
      decide
    · rcases List.mem_append.mp hm with hm | hm
      · exact (fmt.isDigit_not_special _ (hall _ hm)).2.2.2.2.2 rfl
      · revert hm
        decide
  unfold applyStyles
  rw [hform, strings.Split_append ';' _ _ h1, strings.Split_of_not_mem ';' _ h2]
  simp only [List.foldl_cons, List.foldl_nil]
  rw [applyStyle_color element c hc1 hhead hlast, applyStyle_width _ n hn]

/-- Claim C11: a childless element whose style attribute is `color:<c>;width:<n>px`,
with `n < 2^63` written in decimal and `c` a value without `:` or `;` and without
white space at either end, renders with `Color == c` and `Width == n`, while `Height`
stays 20, `Background` stays `#FFFFFF` and tag, text and position are those of the
element; so `color:red;width:50px` gives colour `red` and width 50. -/
theorem inline_style_color_width (tag text id : GoString)
    (attributes : List (GoString × GoString)) (classNames : List GoString) (x y : Int)
    (c : GoString) (n : Nat) (hn : n < 2 ^ 63) (hc1 : ':' ∉ c) (hc2 : ';' ∉ c)
    (hhead : ∀ ch, c.head? = some ch → strings.IsSpace ch = false)
    (hlast : ∀ ch, c.getLast? = some ch → strings.IsSpace ch = false)
    (hstyle : attributes.lookup "style".toList
      = some ("color:".toList ++ c ++ ";width:".toList ++ Nat.toDigits 10 n
          ++ "px".toList)) :
    renderElement (.mk tag attributes [] text id classNames) x y
      = .mk tag text x y (n : Int) 20 c "#FFFFFF".toList [] := by
  rw [renderElement_eq]
  simp only [html.Element.Children, renderChildren, List.getLast?_nil]
  unfold styledBox
  simp only [html.Element.Attributes, html.Element.TagName, html.Element.Text, hstyle]
  rw [applyStyles_color_width _ c n hn hc1 hc2 hhead hlast]
  rfl

/-- Claim C11 on the style `color:red;width:50px` of a childless `p`. -/
theorem inline_style_color_width_witness :
    renderElement
        (.mk "p".toList [("style".toList, "color:red;width:50px".toList)] [] "hi".toList
          [] []) 0 0
      = .mk "p".toList "hi".toList 0 0 50 20 "red".toList "#FFFFFF".toList [] :=
  inline_style_color_width "p".toList "hi".toList []
    [("style".toList, "color:red;width:50px".toList)] [] 0 0 "red".toList 50
    (by decide) (by decide) (by decide) (by decide) (by decide) (by rfl)

end renderer

/-! ## The claim on title and body extraction -/

namespace strings

theorem prefix_clash : ∀ (substr x s : GoString), substr <+: x ++ s →
    substr.take x.length = x.take substr.length
  | [], x, _, _ => by simp
  | c :: substr, [], _, _ => by simp
  | c :: substr, d :: x, s, h => by
    rw [List.cons_append, List.cons_prefix_cons] at h
    simp only [List.length_cons, List.take_succ_cons, h.1,
      prefix_clash substr x s h.2]

theorem indexAux_match (substr s : GoString) (i : Nat) (h : substr <+: s) :
    indexAux substr s i = (i : Int) := by
  have hp : substr.isPrefixOf s = true := List.isPrefixOf_iff_prefix.mpr h
  cases s with
  | nil => rw [indexAux, if_pos hp]
  | cons c cs => rw [indexAux, if_pos hp]

theorem indexAux_step (substr : GoString) (c : Char) (cs : GoString) (i : Nat)
    (h : ¬ substr <+: c :: cs) :
    indexAux substr (c :: cs) i = indexAux substr cs (i + 1) := by
  have hp : ¬ substr.isPrefixOf (c :: cs) = true := fun hp =>
    h (List.isPrefixOf_iff_prefix.mp hp)
  rw [indexAux, if_neg hp]

/-- The search passes a stretch `a` in which no occurrence can start. -/
theorem indexAux_skip (substr s : GoString) : ∀ (a : GoString) (i : Nat),
    (∀ j, j < a.length → substr.take (a.length - j) ≠ (a.drop j).take substr.length) →
    indexAux substr (a ++ s) i = indexAux substr s (i + a.length)
  | [], i, _ => by simp
  | x :: a, i, h => by
    have h0 : ¬ substr <+: (x :: a) ++ s := by
      intro hp
      exact h 0 (by simp) (prefix_clash substr (x :: a) s hp)
    rw [List.cons_append, indexAux_step substr x (a ++ s) i h0,
      indexAux_skip substr s a (i + 1)]
    · congr 1
      simp only [List.length_cons]
      omega
    · intro j hj
      have := h (j + 1) (by simpa using hj)
      simpa using this

/-- The search passes a stretch that lacks the first character of `substr`. -/
theorem indexAux_skip_of_not_mem (c0 : Char) (rest s : GoString) :
    ∀ (a : GoString) (i : Nat), c0 ∉ a →
    indexAux (c0 :: rest) (a ++ s) i = indexAux (c0 :: rest) s (i + a.length)
  | [], i, _ => by simp
  | x :: a, i, h => by
    have hx : c0 ≠ x := fun e => h (e ▸ List.mem_cons_self _ _)
    have h0 : ¬ (c0 :: rest) <+: (x :: a) ++ s := by
      rw [List.cons_append, List.cons_prefix_cons]
      exact fun hp => hx hp.1
    rw [List.cons_append, indexAux_step _ x (a ++ s) i h0,
      indexAux_skip_of_not_mem c0 rest s a (i + 1) (fun hm => h (List.mem_cons_of_mem _ hm))]
    congr 1
    simp only [List.length_cons]
    omega

theorem not_prefix_straddle (substr x rest : GoString) (hx : x ≠ [])
    (hnot : ¬ substr <:+: x)
    (hborder : ∀ l, 1 ≤ l → l < substr.length →
      substr.drop l ≠ substr.take (substr.length - l)) :
    ¬ substr <+: x ++ (substr ++ rest) := by
  intro hp
  by_cases hlen : substr.length ≤ x.length
  · have : substr <+: x :=
      List.prefix_of_prefix_length_le hp (List.prefix_append x _) hlen
    exact hnot this.isInfix
  · have hxs : x <+: substr :=
      List.prefix_of_prefix_length_le (List.prefix_append x _) hp (by omega)
    obtain ⟨r, hr⟩ := hxs
    have hrlen : r.length = substr.length - x.length := by
      rw [← hr, List.length_append]
      omega
    have hrd : substr.drop x.length = r := by
      rw [← hr, List.drop_left]
    rw [← hr, List.prefix_append_right_inj] at hp
    have hrs : r <+: x ++ r :=
      List.prefix_of_prefix_length_le hp (List.prefix_append (x ++ r) rest)
        (by simp)
    have hrt : r = (x ++ r).take r.length := List.prefix_iff_eq_take.mp hrs
    have hpos : 1 ≤ x.length := by
      cases x with
      | nil => exact absurd rfl hx
      | cons a as => simp
    refine hborder x.length hpos (by omega) ?_
    rw [hrd, ← hrlen, hr] at *
    rw [← hr]
    exact hrt

/-- The search passes a stretch `b` without occurrence and finds the occurrence that
follows it, when `substr` cannot overlap itself. -/
theorem indexAux_after (substr rest : GoString)
    (hborder : ∀ l, 1 ≤ l → l < substr.length →
      substr.drop l ≠ substr.take (substr.length - l)) :
    ∀ (b : GoString) (i : Nat), ¬ substr <:+: b →
    indexAux substr (b ++ (substr ++ rest)) i = ((i + b.length : Nat) : Int)
  | [], i, _ => by
    rw [List.nil_append, indexAux_match _ _ _ (List.prefix_append _ _)]
    rfl
  | c :: b, i, h => by
    have h0 := not_prefix_straddle substr (c :: b) rest (by simp) h hborder
    have hb : ¬ substr <:+: b := fun hi => h (hi.trans (List.suffix_cons c b).isInfix)
    rw [List.cons_append, indexAux_step substr c (b ++ (substr ++ rest)) i h0,
      indexAux_after substr rest hborder b (i + 1) hb]
    congr 1
    simp only [List.length_cons]
    omega

end strings

namespace html

theorem sliceExpr_mid {α : Type} (p m q : List α) (lo hi : Int)
    (hlo : lo = (p.length : Int)) (hhi : hi = (p.length : Int) + (m.length : Int)) :
    sliceExpr (p ++ (m ++ q)) lo hi = .ok m := by
  subst hlo hhi
  unfold sliceExpr
  rw [if_pos]
  · have h1 : ((p.length : Int)).toNat = p.length := by simp
    have h2 : ((p.length : Int) + (m.length : Int)).toNat - ((p.length : Int)).toNat
        = m.length := by
      rw [h1]
      omega
    rw [h2, h1, List.drop_left, List.take_left]
  · simp only [List.length_append, Nat.cast_add]
    omega

theorem Index_title_start (t rest : GoString) :
    strings.Index ("<html><head><title>".toList ++ (t ++ rest)) "<title>".toList = 12 := by
  have hs : "<html><head><title>".toList ++ (t ++ rest)
      = "<html><head>".toList ++ ("<title>".toList ++ (t ++ rest)) := rfl
  unfold strings.Index
  rw [hs, strings.indexAux_skip _ _ "<html><head>".toList 0 (by decide),
    strings.indexAux_match _ _ _ (List.prefix_append _ _)]
  rfl

theorem Index_title_end (t rest : GoString) (ht : '<' ∉ t) :
    strings.Index ("<html><head><title>".toList
        ++ (t ++ ("</title></head><body>".toList ++ rest))) "</title>".toList
      = 19 + (t.length : Int) := by
  have hs : "</title></head><body>".toList ++ rest
      = "</title>".toList ++ ("</head><body>".toList ++ rest) := rfl
  unfold strings.Index
  rw [hs, strings.indexAux_skip _ _ "<html><head><title>".toList 0 (by decide)]
  have hsub : "</title>".toList = '<' :: "/title>".toList := rfl
  rw [hsub, strings.indexAux_skip_of_not_mem '<' _ _ t _ ht, ← hsub,
    strings.indexAux_match _ _ _ (List.prefix_append _ _)]
  simp only [List.length_cons, List.length_nil, String.toList, zero_add, Nat.cast_add]
  push_cast
  ring

theorem Index_body_start (t rest : GoString) (ht : '<' ∉ t) :
    strings.Index ("<html><head><title>".toList
        ++ (t ++ ("</title></head><body>".toList ++ rest))) "<body".toList
      = 34 + (t.length : Int) := by
  have hs : "</title></head><body>".toList ++ rest
      = "</title></head>".toList ++ ("<body".toList ++ (">".toList ++ rest)) := rfl
  unfold strings.Index
  rw [hs, strings.indexAux_skip _ _ "<html><head><title>".toList 0 (by decide)]
  have hsub : "<body".toList = '<' :: "body".toList := rfl
  rw [hsub, strings.indexAux_skip_of_not_mem '<' _ _ t _ ht, ← hsub,
    strings.indexAux_skip _ _ "</title></head>".toList _ (by decide),
    strings.indexAux_match _ _ _ (List.prefix_append _ _)]
  simp only [List.length_cons, List.length_nil, String.toList, zero_add, Nat.cast_add]
  push_cast
  ring

theorem Index_body_end (t b : GoString) (ht : '<' ∉ t)
    (hb : ¬ "</body>".toList <:+: b) :
    strings.Index ("<html><head><title>".toList
        ++ (t ++ ("</title></head><body>".toList ++ (b ++ "</body></html>".toList))))
        "</body>".toList
      = 40 + (t.length : Int) + (b.length : Int) := by
  have hs : "</body></html>".toList = "</body>".toList ++ "</html>".toList := rfl
  unfold strings.Index
  rw [hs, strings.indexAux_skip _ _ "<html><head><title>".toList 0 (by decide)]
  have hsub : "</body>".toList = '<' :: "/body>".toList := rfl
  rw [hsub, strings.indexAux_skip_of_not_mem '<' _ _ t _ ht, ← hsub,
    strings.indexAux_skip _ _ "</title></head><body>".toList _ (by decide),
    strings.indexAux_after _ _ (by decide) b _ hb]
  simp only [List.length_cons, List.length_nil, String.toList, zero_add, Nat.cast_add]
  push_cast
  ring

theorem parseTitle_well_formed (t rest : GoString) (ht : '<' ∉ t) :
    parseTitle ("<html><head><title>".toList
        ++ (t ++ ("</title></head><body>".toList ++ rest))) = .ok t := by
  unfold parseTitle
  dsimp only
  rw [Index_title_end t rest ht, Index_title_start]
  rw [if_pos (by constructor <;> omega)]
  exact sliceExpr_mid _ t _ _ _ (by decide) (by
    have : ("<html><head><title>".toList).length = 19 := by decide
    rw [this]
    rfl)

theorem parseBody_well_formed (t b : GoString) (ht : '<' ∉ t)
    (hb : ¬ "</body>".toList <:+: b) :
    parseBody ("<html><head><title>".toList
        ++ (t ++ ("</title></head><body>".toList ++ (b ++ "</body></html>".toList))))
      = .ok b := by
  have htail : sliceFrom ("<html><head><title>".toList
        ++ (t ++ ("</title></head><body>".toList ++ (b ++ "</body></html>".toList))))
        (34 + (t.length : Int))
      = .ok ("<body".toList ++ (">".toList ++ (b ++ "</body></html>".toList))) := by
    have hs : "<html><head><title>".toList
        ++ (t ++ ("</title></head><body>".toList ++ (b ++ "</body></html>".toList)))
        = ("<html><head><title>".toList ++ (t ++ "</title></head>".toList))
          ++ (("<body".toList ++ (">".toList ++ (b ++ "</body></html>".toList))) ++ []) := by
      have : "</title></head><body>".toList ++ (b ++ "</body></html>".toList)
          = "</title></head>".toList
            ++ ("<body".toList ++ (">".toList ++ (b ++ "</body></html>".toList))) := rfl
      rw [this]
      simp only [List.append_assoc, List.append_nil]
    unfold sliceFrom
    rw [hs]
    apply sliceExpr_mid
    · simp only [List.length_append, Nat.cast_add]
      have h1 : ("<html><head><title>".toList).length = 19 := by decide
      have h2 : ("</title></head>".toList).length = 15 := by decide
      rw [h1, h2]
      push_cast
      ring
    · simp only [List.length_append, Nat.cast_add, List.length_nil, Nat.cast_zero, add_zero]
  have hgt : strings.Index
      ("<body".toList ++ (">".toList ++ (b ++ "</body></html>".toList))) ">".toList = 5 := by
    unfold strings.Index
    have hsub : ">".toList = '>' :: [] := rfl
    rw [hsub, strings.indexAux_skip_of_not_mem '>' [] _ "<body".toList 0 (by decide),
      strings.indexAux_match _ _ _ (List.prefix_append _ _)]
    rfl
  unfold parseBody
  dsimp only
  rw [Index_body_end t b ht hb, Index_body_start t _ ht]
  rw [if_pos (by constructor <;> omega), htail]
  dsimp only
  rw [hgt, if_pos (by decide)]
  have hs : "<html><head><title>".toList
      ++ (t ++ ("</title></head><body>".toList ++ (b ++ "</body></html>".toList)))
      = ("<html><head><title>".toList ++ (t ++ "</title></head><body>".toList))
        ++ (b ++ "</body></html>".toList) := by
    simp only [List.append_assoc]
  rw [hs]
  apply sliceExpr_mid
  · simp only [List.length_append, Nat.cast_add]
    have h1 : ("<html><head><title>".toList).length = 19 := by decide
    have h2 : ("</title></head><body>".toList).length = 21 := by decide
    rw [h1, h2]
    push_cast
    ring
  · simp only [List.length_append, Nat.cast_add]
    have h1 : ("<html><head><title>".toList).length = 19 := by decide
    have h2 : ("</title></head><body>".toList).length = 21 := by decide
    rw [h1, h2]
    push_cast
    ring

/-- Claim C12: for every `t` without `<` and every `b` in which `</body>` does not
occur, `Parse` on `<html><head><title>` ++ t ++ `</title></head><body>` ++ b ++
`</body></html>` returns a document with `Title == t` whose body element (the second
child of `html`, also behind `BodyElem`) has `Text` equal to `b`. -/
theorem Parse_well_formed (t b : GoString) (ht : '<' ∉ t)
    (hb : ¬ "</body>".toList <:+: b) :
    ∃ doc, Parse ("<html><head><title>".toList ++ t ++ "</title></head><body>".toList
        ++ b ++ "</body></html>".toList) = .ok (doc, none) ∧
      doc.Title = t ∧ doc.Body = b ∧
      doc.Elements = [.mk "html".toList []
        [.mk "head".toList [] [] [] [] [], .mk "body".toList [] [] b [] []] [] [] []] ∧
      doc.BodyElem.map Element.Text = some b := by
  have hs : "<html><head><title>".toList ++ t ++ "</title></head><body>".toList
        ++ b ++ "</body></html>".toList
      = "<html><head><title>".toList
        ++ (t ++ ("</title></head><body>".toList ++ (b ++ "</body></html>".toList))) := by
    simp only [List.append_assoc]
  rw [hs, Parse, parseTitle_well_formed t _ ht, parseBody_well_formed t b ht hb]
  exact ⟨_, rfl, rfl, rfl, rfl, rfl⟩

/-- Claim C12 on `t = Hi`, `b = Hello`: the page
`<html><head><title>Hi</title></head><body>Hello</body></html>`. -/
theorem Parse_well_formed_witness :
    ∃ doc, Parse "<html><head><title>Hi</title></head><body>Hello</body></html>".toList
        = .ok (doc, none) ∧
      doc.Title = "Hi".toList ∧ doc.BodyElem.map Element.Text = some "Hello".toList :=
  match Parse_well_formed "Hi".toList "Hello".toList (by decide) (by decide) with
  | ⟨doc, h1, h2, _, _, h5⟩ => ⟨doc, h1, h2, h5⟩

end html

/-! ## The claim on `GetInnerHTML` -/

namespace html

theorem getInnerHTMLChildren_mem (out : GoString) : ∀ (cs : List Element),
    out ∈ getInnerHTMLChildren cs ↔
      ∃ parts, List.Forall₂ (fun c part => ∃ (order : List (GoString × GoString))
          (inner : GoString),
          order.Perm (mapEntries c.Attributes) ∧ inner ∈ GetInnerHTML c ∧
          part = "<".toList ++ c.TagName ++ order.flatMap attributeText ++ ">".toList
            ++ inner ++ "</".toList ++ c.TagName ++ ">".toList) cs parts ∧
        out = parts.flatten := by
  intro cs
  induction cs generalizing out with
  | nil =>
    rw [getInnerHTMLChildren]
    constructor
    · intro h
      rw [List.mem_singleton] at h
      exact ⟨[], List.Forall₂.nil, by rw [h]; rfl⟩
    · rintro ⟨parts, hf, rfl⟩
      cases hf
      simp
  | cons c cs ih =>
    rw [getInnerHTMLChildren]
    simp only [List.mem_flatMap, List.mem_map, List.mem_permutations']
    constructor
    · rintro ⟨order, hperm, inner, hinner, tail, htail, rfl⟩
      obtain ⟨parts, hf, rfl⟩ := (ih tail).mp htail
      exact ⟨_ :: parts, List.Forall₂.cons ⟨order, inner, hperm, hinner, rfl⟩ hf, rfl⟩
    · rintro ⟨parts, hf, rfl⟩
      cases hf with
      | cons hhead htl =>
        obtain ⟨order, inner, hperm, hinner, rfl⟩ := hhead
        exact ⟨order, hperm, inner, hinner, _, (ih _).mpr ⟨_, htl, rfl⟩, rfl⟩

theorem permutations'_of_length_le_one {α : Type} (l : List α) (h : l.length ≤ 1) :
    l.permutations' = [l] := by
  match l, h with
  | [], _ => rfl
  | [a], _ => rfl

mutual
theorem GetInnerHTML_single : ∀ (e : Element),
    (∀ d ∈ preOrderAll e.Children, (mapEntries d.Attributes).length ≤ 1) →
    ∃ out, GetInnerHTML e = [out]
  | .mk t a c x i k, h => by
    obtain ⟨rest, hr⟩ := getInnerHTMLChildren_single c h
    exact ⟨x ++ rest, by rw [GetInnerHTML, hr]; rfl⟩
theorem getInnerHTMLChildren_single : ∀ (cs : List Element),
    (∀ d ∈ preOrderAll cs, (mapEntries d.Attributes).length ≤ 1) →
    ∃ out, getInnerHTMLChildren cs = [out]
  | [], _ => ⟨[], by rw [getInnerHTMLChildren]⟩
  | .mk t a c x i k :: cs, h => by
    have hself : (mapEntries a).length ≤ 1 :=
      h (.mk t a c x i k) (by rw [preOrderAll, preOrder]; simp)
    obtain ⟨inner, hi⟩ := GetInnerHTML_single (.mk t a c x i k) (by
      intro d hd
      apply h d
      rw [preOrderAll, preOrder]
      simp only [Element.Children] at hd
      simp [hd])
    obtain ⟨tail, ht⟩ := getInnerHTMLChildren_single cs (by
      intro d hd
      apply h d
      rw [preOrderAll]
      simp [hd])
    rw [getInnerHTMLChildren, hi, ht]
    simp only [Element.Attributes, permutations'_of_length_le_one _ hself]
    exact ⟨_, rfl⟩
end

theorem lookup_isSome_of_mem_keys (k : GoString) : ∀ (a : List (GoString × GoString)),
    k ∈ a.map Prod.fst → ∃ v, a.lookup k = some v
  | [], h => by simp at h
  | (k2, v2) :: a, h => by
    rw [List.lookup_cons]
    by_cases hk : k = k2
    · subst hk
      exact ⟨v2, by simp⟩
    · have hb : (k == k2) = false := by simpa using hk
      rw [hb]
      rw [List.map_cons, List.mem_cons] at h
      rcases h with h | h
      · exact absurd h hk
      · exact lookup_isSome_of_mem_keys k a h

theorem mem_keys_of_lookup (k v : GoString) : ∀ (a : List (GoString × GoString)),
    a.lookup k = some v → k ∈ a.map Prod.fst
  | [], h => by simp at h
  | (k2, v2) :: a, h => by
    rw [List.lookup_cons] at h
    by_cases hk : k = k2
    · subst hk
      simp
    · have hb : (k == k2) = false := by simpa using hk
      rw [hb] at h
      rw [List.map_cons, List.mem_cons]
      exact Or.inr (mem_keys_of_lookup k v a h)

theorem mem_mapEntries (a : List (GoString × GoString)) (k v : GoString) :
    (k, v) ∈ mapEntries a ↔ a.lookup k = some v := by
  unfold mapEntries
  rw [List.mem_filterMap]
  constructor
  · rintro ⟨key, -, hkey⟩
    cases hl : a.lookup key with
    | none => rw [hl] at hkey; cases hkey
    | some value =>
      rw [hl] at hkey
      simp only [Option.map_some', Option.some.injEq, Prod.mk.injEq] at hkey
      rw [← hkey.1, ← hkey.2]
      exact hl
  · intro h
    exact ⟨k, List.mem_dedup.mpr (mem_keys_of_lookup k v a h), by rw [h]; rfl⟩

theorem map_fst_filterMap_lookup (a : List (GoString × GoString)) :
    ∀ (keys : List GoString), (∀ key ∈ keys, key ∈ a.map Prod.fst) →
    (keys.filterMap (fun key => (a.lookup key).map (fun value => (key, value)))).map
      Prod.fst = keys
  | [], _ => rfl
  | key :: keys, h => by
    obtain ⟨v, hv⟩ := lookup_isSome_of_mem_keys key a (h key (List.mem_cons_self _ _))
    rw [List.filterMap_cons, hv]
    simp only [Option.map_some', List.map_cons]
    rw [map_fst_filterMap_lookup a keys (fun k hk => h k (List.mem_cons_of_mem _ hk))]

theorem mapEntries_keys (a : List (GoString × GoString)) :
    (mapEntries a).map Prod.fst = (a.map Prod.fst).dedup :=
  map_fst_filterMap_lookup a _ (fun _ hk => List.mem_dedup.mp hk)

/-- The orders in which the entries of an attribute map can be visited are the lists
that hold every entry of the map once. -/
theorem perm_mapEntries_iff (a order : List (GoString × GoString)) :
    order.Perm (mapEntries a) ↔
      (order.map Prod.fst).Nodup ∧ ∀ k v, (k, v) ∈ order ↔ a.lookup k = some v := by
  have hnd : ((mapEntries a).map Prod.fst).Nodup := by
    rw [mapEntries_keys]
    exact List.nodup_dedup _
  constructor
  · intro hp
    refine ⟨((hp.map Prod.fst).nodup_iff).mpr hnd, fun k v => ?_⟩
    rw [hp.mem_iff, mem_mapEntries]
  · rintro ⟨hn, hmem⟩
    rw [List.perm_ext_iff_of_nodup (List.Nodup.of_map _ hn) (List.Nodup.of_map _ hnd)]
    rintro ⟨k, v⟩
    rw [hmem, mem_mapEntries]

theorem attributeText_eq (kv : GoString × GoString) :
    attributeText kv
      = " ".toList ++ kv.1 ++ "=".toList ++ [Char.ofNat 34] ++ kv.2 ++ [Char.ofNat 34] := by
  simp [attributeText, quote]

theorem flatMap_attributeText (order : List (GoString × GoString)) :
    order.flatMap attributeText
      = order.flatMap (fun kv =>
          " ".toList ++ kv.1 ++ "=".toList ++ [Char.ofNat 34] ++ kv.2 ++ [Char.ofNat 34]) := by
  congr 1
  funext kv
  exact attributeText_eq kv

mutual
theorem GetInnerHTML_nonempty : ∀ (e : Element), ∃ out, out ∈ GetInnerHTML e
  | .mk t a c x i k => by
    obtain ⟨rest, hr⟩ := getInnerHTMLChildren_nonempty c
    exact ⟨x ++ rest, by rw [GetInnerHTML]; exact List.mem_map_of_mem _ hr⟩
theorem getInnerHTMLChildren_nonempty : ∀ (cs : List Element),
    ∃ out, out ∈ getInnerHTMLChildren cs
  | [] => ⟨[], by rw [getInnerHTMLChildren]; exact List.mem_singleton.mpr rfl⟩
  | child :: cs => by
    obtain ⟨inner, hi⟩ := GetInnerHTML_nonempty child
    obtain ⟨tail, ht⟩ := getInnerHTMLChildren_nonempty cs
    rw [getInnerHTMLChildren]
    simp only [List.mem_flatMap, List.mem_map, List.mem_permutations']
    exact ⟨_, mapEntries child.Attributes, List.Perm.refl _, inner, hi, tail, ht, rfl⟩
end

/-- Claim C16: the strings `GetInnerHTML(e)` can return are exactly `e`'s own text
followed, for each child `c` in child order, by `<` ++ c.TagName ++ (for each
attribute `k`, `v` of `c`, each once, in some order: a blank, `k`, `=`, and `v` between
double quotes, the character 34) ++ `>` ++ a result of `GetInnerHTML(c)` ++ `</` ++
c.TagName ++ `>`; there always is a result; when every descendant has at most one
attribute there is exactly one; for the root of a parsed document it is
`<head></head><body>` ++ body text ++ `</body>`. -/
theorem GetInnerHTML_spec (e : Element) :
    (∀ out, out ∈ GetInnerHTML e ↔
      ∃ parts, List.Forall₂ (fun c part => ∃ (order : List (GoString × GoString))
          (inner : GoString),
          (order.map Prod.fst).Nodup ∧
          (∀ k v, (k, v) ∈ order ↔ c.Attributes.lookup k = some v) ∧
          inner ∈ GetInnerHTML c ∧
          part = "<".toList ++ c.TagName
            ++ order.flatMap (fun kv =>
                " ".toList ++ kv.1 ++ "=".toList ++ [Char.ofNat 34] ++ kv.2
                  ++ [Char.ofNat 34])
            ++ ">".toList ++ inner ++ "</".toList ++ c.TagName ++ ">".toList)
          e.Children parts ∧
        out = e.Text ++ parts.flatten) ∧
    (∃ out, out ∈ GetInnerHTML e) ∧
    ((∀ d ∈ preOrderAll e.Children, (d.Attributes.map Prod.fst).dedup.length ≤ 1) →
      ∃ out, GetInnerHTML e = [out]) ∧
    (∀ htmlContent r, Parse htmlContent = .ok r → e ∈ r.1.Elements →
      GetInnerHTML e = ["<head></head><body>".toList ++ r.1.Body ++ "</body>".toList]) := by
  refine ⟨?_, GetInnerHTML_nonempty e, ?_, ?_⟩
  · intro out
    obtain ⟨t, a, c, x, i, k⟩ := e
    rw [GetInnerHTML]
    simp only [List.mem_map, Element.Children, Element.Text]
    constructor
    · rintro ⟨rest, hrest, rfl⟩
      obtain ⟨parts, hf, rfl⟩ := (getInnerHTMLChildren_mem rest c).mp hrest
      refine ⟨parts, hf.imp ?_, rfl⟩
      rintro child part ⟨order, inner, hperm, hinner, hpart⟩
      have hent := (perm_mapEntries_iff _ _).mp hperm
      rw [flatMap_attributeText] at hpart
      exact ⟨order, inner, hent.1, hent.2, hinner, hpart⟩
    · rintro ⟨parts, hf, rfl⟩
      refine ⟨_, (getInnerHTMLChildren_mem _ c).mpr ⟨parts, hf.imp ?_, rfl⟩, rfl⟩
      rintro child part ⟨order, inner, hnd, hmem, hinner, hpart⟩
      rw [← flatMap_attributeText] at hpart
      exact ⟨order, inner, (perm_mapEntries_iff _ _).mpr ⟨hnd, hmem⟩, hinner, hpart⟩
  · intro h
    apply GetInnerHTML_single e
    intro d hd
    rw [← List.length_map (mapEntries d.Attributes) Prod.fst, mapEntries_keys]
    exact h d hd
  · intro htmlContent r hp he
    have hsk := Parse_elements htmlContent r hp
    rw [hsk, List.mem_singleton] at he
    rw [he]
    simp [GetInnerHTML, getInnerHTMLChildren, mapEntries, Element.Attributes,
      Element.TagName, List.permutations', String.toList]

/-- Claim C16 on a `div` whose one child `a` has the attribute `href` with value `u`
and the text `x`: the one result is `<a href="u">x</a>`; and on the root of the
document parsed from `Hello`. -/
theorem GetInnerHTML_spec_witness :
    GetInnerHTML (.mk "div".toList [] [.mk "a".toList
        [("href".toList, "u".toList)] [] "x".toList [] []] [] [] [])
      = ["<a href=".toList ++ [Char.ofNat 34] ++ "u".toList ++ [Char.ofNat 34]
          ++ ">x</a>".toList] ∧
    ∀ e ∈ [Element.mk "html".toList [] [.mk "head".toList [] [] [] [] [],
        .mk "body".toList [] [] "Hello".toList [] []] [] [] []],
      GetInnerHTML e = ["<head></head><body>Hello</body>".toList] :=
  ⟨by
    obtain ⟨out, hout⟩ := (GetInnerHTML_spec (.mk "div".toList [] [.mk "a".toList
      [("href".toList, "u".toList)] [] "x".toList [] []] [] [] [])).2.2.1 (by decide)
    have hent := (perm_mapEntries_iff [("href".toList, "u".toList)]
      [("href".toList, "u".toList)]).mp (List.Perm.refl _)
    have hmem := ((GetInnerHTML_spec (.mk "div".toList [] [.mk "a".toList
      [("href".toList, "u".toList)] [] "x".toList [] []] [] [] [])).1
        ("<a href=".toList ++ [Char.ofNat 34] ++ "u".toList ++ [Char.ofNat 34]
          ++ ">x</a>".toList)).mpr
      ⟨["<a href=".toList ++ [Char.ofNat 34] ++ "u".toList ++ [Char.ofNat 34]
          ++ ">x</a>".toList],
        List.Forall₂.cons
          ⟨[("href".toList, "u".toList)], "x".toList, hent.1, hent.2, by decide, by rfl⟩
          List.Forall₂.nil,
        by rfl⟩
    rw [hout, List.mem_singleton] at hmem
    rw [hout, hmem],
   fun e he => (GetInnerHTML_spec e).2.2.2 "Hello".toList
     ({ Title := defaultTitle, Body := "Hello".toList,
        Elements := [.mk "html".toList []
          [.mk "head".toList [] [] [] [] [], .mk "body".toList [] [] "Hello".toList [] []]
          [] [] []],
        Head := some (.mk "head".toList [] [] [] [] []),
        BodyElem := some (.mk "body".toList [] [] "Hello".toList [] []) }, none)
     (by rfl) he⟩

/-- The two results of `GetInnerHTML` on `sample.linkDiv`, one for each order of the
two attributes of its child. -/
theorem GetInnerHTML_linkDiv :
    GetInnerHTML sample.linkDiv
      = ["see <a href=".toList ++ [quote, 'u', quote] ++ " id=".toList
          ++ [quote, 'l', quote] ++ ">x</a>".toList,
         "see <a id=".toList ++ [quote, 'l', quote] ++ " href=".toList
          ++ [quote, 'u', quote] ++ ">x</a>".toList] := by
  decide

end html

/-! ## The claim on `setAttribute` through the bridge -/

namespace html

theorem preOrder_eq (e : Element) : preOrder e = e :: preOrderAll e.Children := by
  cases e
  rw [preOrder]
  rfl

mutual
theorem findElementByIDPath_spec (id : GoString) : ∀ (e : Element),
    (findElementByIDPath id e = none → findElementByIDRecursive id e = none) ∧
    (∀ p, findElementByIDPath id e = some p →
      ∃ found, subElement p e = some found ∧ findElementByIDRecursive id e = some found ∧
        (p = [] → e.ID = id))
  | .mk t a c x i k => by
    rw [findElementByIDPath, findElementByIDRecursive]
    by_cases h : i = id
    · rw [if_pos h, if_pos h]
      refine ⟨fun hn => (by cases hn), ?_⟩
      intro p hp
      cases hp
      exact ⟨_, rfl, rfl, fun _ => h⟩
    · rw [if_neg h, if_neg h]
      obtain ⟨h1, h2⟩ := findElementByIDPathChildren_spec id c 0
      refine ⟨h1, ?_⟩
      intro p hp
      obtain ⟨m, q, child, found, hq, -, hc, hs, hr⟩ := h2 p hp
      subst hq
      refine ⟨found, ?_, hr, fun hnil => by cases hnil⟩
      rw [subElement]
      simp only [Element.Children, Nat.sub_zero] at hc ⊢
      rw [hc]
      exact hs
theorem findElementByIDPathChildren_spec (id : GoString) : ∀ (cs : List Element) (n : Nat),
    (findElementByIDPathChildren id cs n = none → findElementByIDChildren id cs = none) ∧
    (∀ q, findElementByIDPathChildren id cs n = some q →
      ∃ m p child found, q = m :: p ∧ n ≤ m ∧ cs[m - n]? = some child ∧
        subElement p child = some found ∧ findElementByIDChildren id cs = some found)
  | [], n => by
    rw [findElementByIDPathChildren, findElementByIDChildren]
    exact ⟨fun _ => rfl, fun q hq => by cases hq⟩
  | child :: rest, n => by
    rw [findElementByIDPathChildren, findElementByIDChildren]
    obtain ⟨h1, h2⟩ := findElementByIDPath_spec id child
    cases hp : findElementByIDPath id child with
    | some p =>
      obtain ⟨found, hs, hr, -⟩ := h2 p hp
      rw [hr]
      refine ⟨fun hn => (by cases hn), ?_⟩
      intro q hq
      cases hq
      exact ⟨n, p, child, found, rfl, le_refl _, by simp, hs, rfl⟩
    | none =>
      rw [h1 hp]
      obtain ⟨g1, g2⟩ := findElementByIDPathChildren_spec id rest (n + 1)
      refine ⟨g1, ?_⟩
      intro q hq
      obtain ⟨m, p, c, found, hq2, hle, hc, hs, hr⟩ := g2 q hq
      refine ⟨m, p, c, found, hq2, by omega, ?_, hs, hr⟩
      have : m - n = (m - (n + 1)) + 1 := by omega
      rw [this, List.getElem?_cons_succ]
      exact hc
end

theorem findElementsByIDRefLoop_spec (id : GoString) : ∀ (es : List Element) (n : Nat),
    (findElementsByIDRefLoop id es n = none → FindElementsByID.loop id es = none) ∧
    (∀ r, findElementsByIDRefLoop id es n = some r →
      (∃ m element, r = .loopCopy m ∧ n ≤ m ∧ es[m - n]? = some element ∧
        element.ID = id ∧ FindElementsByID.loop id es = some element) ∨
      (∃ m j p element found, r = .inTree (m :: j :: p) ∧ n ≤ m ∧
        es[m - n]? = some element ∧ subElement (j :: p) element = some found ∧
        FindElementsByID.loop id es = some found))
  | [], n => by
    rw [findElementsByIDRefLoop, FindElementsByID.loop]
    exact ⟨fun _ => rfl, fun q hq => by cases hq⟩
  | element :: rest, n => by
    rw [findElementsByIDRefLoop, FindElementsByID.loop]
    obtain ⟨h1, h2⟩ := findElementByIDPath_spec id element
    cases hp : findElementByIDPath id element with
    | some p =>
      obtain ⟨found, hs, hr, hid⟩ := h2 p hp
      rw [hr]
      refine ⟨fun hn => (by cases p <;> cases hn), ?_⟩
      intro r hq
      cases p with
      | nil =>
        cases hq
        cases hs
        exact Or.inl ⟨n, element, rfl, le_refl _, by simp, hid rfl, rfl⟩
      | cons j p =>
        cases hq
        exact Or.inr ⟨n, j, p, element, found, rfl, le_refl _, by simp, hs, rfl⟩
    | none =>
      rw [h1 hp]
      obtain ⟨g1, g2⟩ := findElementsByIDRefLoop_spec id rest (n + 1)
      refine ⟨g1, ?_⟩
      intro r hq
      have hidx : ∀ m, n + 1 ≤ m → (element :: rest)[m - n]? = rest[m - (n + 1)]? := by
        intro m hm
        have : m - n = (m - (n + 1)) + 1 := by omega
        rw [this, List.getElem?_cons_succ]
      rcases g2 r hq with ⟨m, e, hr2, hle, he, hid, hl⟩ | ⟨m, j, p, e, found, hr2, hle, he, hs, hl⟩
      · exact Or.inl ⟨m, e, hr2, by omega, by rw [hidx m hle]; exact he, hid, hl⟩
      · exact Or.inr ⟨m, j, p, e, found, hr2, by omega, by rw [hidx m hle]; exact he, hs, hl⟩

/-- The pointer `FindElementsByIDRef` returns points at the element `FindElementsByID`
returns, and both are nil together. -/
theorem FindElementsByIDRef_deref (d : Document) (id : GoString) :
    (FindElementsByIDRef d id).bind (deref d) = FindElementsByID d id := by
  obtain ⟨h1, h2⟩ := findElementsByIDRefLoop_spec id d.Elements 0
  unfold FindElementsByIDRef FindElementsByID
  cases hr : findElementsByIDRefLoop id d.Elements 0 with
  | none => rw [h1 hr]; rfl
  | some r =>
    rcases h2 r hr with ⟨m, e, hr2, -, he, -, hl⟩ | ⟨m, j, p, e, found, hr2, -, he, hs, hl⟩
    · subst hr2
      rw [hl, Option.some_bind, deref]
      simpa using he
    · subst hr2
      rw [hl, Option.some_bind, deref]
      simp only [Nat.sub_zero] at he
      rw [he]
      exact hs

/-- A top-level pointer to a loop copy is returned exactly for a top-level element whose own
`ID` is the one looked up. -/
theorem FindElementsByIDRef_loopCopy (d : Document) (id : GoString) (n : Nat)
    (h : FindElementsByIDRef d id = some (.loopCopy n)) :
    ∃ element, d.Elements[n]? = some element ∧ element.ID = id ∧
      FindElementsByID d id = some element := by
  obtain ⟨-, h2⟩ := findElementsByIDRefLoop_spec id d.Elements 0
  rcases h2 _ h with ⟨m, e, hr2, -, he, hid, hl⟩ | ⟨m, j, p, e, found, hr2, -, -, -, -⟩
  · cases hr2
    exact ⟨e, by simpa using he, hid, hl⟩
  · cases hr2

theorem Element.setAttribute_ID (e : Element) (name value : GoString) :
    (e.setAttribute name value).ID = e.ID := by
  cases e
  rfl

theorem Element.setAttribute_Children (e : Element) (name value : GoString) :
    (e.setAttribute name value).Children = e.Children := by
  cases e
  rfl

theorem Element.setAttribute_Attributes (e : Element) (name value : GoString) :
    (e.setAttribute name value).Attributes.lookup name = some value := by
  cases e
  exact network.lookup_mapSet _ _ _

/-- Changing a top-level element without touching its `ID` or its children leaves the
identifiers of the document, in document order, as they were. -/
theorem map_ID_preOrderAll_modify (f : Element → Element)
    (hf : ∀ e, (f e).ID = e.ID ∧ (f e).Children = e.Children) :
    ∀ (es : List Element) (n : Nat),
      (preOrderAll (es.modify f n)).map Element.ID = (preOrderAll es).map Element.ID
  | [], n => by rw [List.modify_nil]
  | e :: es, 0 => by
    rw [List.modify_zero_cons, preOrderAll, preOrderAll, List.map_append, List.map_append,
      preOrder_eq, preOrder_eq, List.map_cons, List.map_cons, (hf e).1, (hf e).2]
  | e :: es, n + 1 => by
    rw [List.modify_succ_cons, preOrderAll, preOrderAll, List.map_append, List.map_append,
      map_ID_preOrderAll_modify f hf es n]

end html

namespace js

/-- Claim C19, as the code behaves for a top-level element: when `getElementById(id)`
returns a top-level element (the pointer `FindElementsByID` hands out is then the address
of the copy made by its `range` loop) and no element of the document has the identifier
`v` yet, then after the proxy's `setAttribute("id", v)` the attribute map of that element
holds `id = v`, but its `ID` field in the document is still `id`, no element of the
document has the identifier `v`, and `FindElementsByID(v)` on the same document returns
nil. -/
theorem setAttribute_id_lost_on_top_level (d : html.Document) (id v : GoString) (n : Nat)
    (href : html.FindElementsByIDRef d id = some (.loopCopy n))
    (hfresh : ∀ e ∈ html.preOrderAll d.Elements, e.ID ≠ v) :
    html.FindElementsByID d id = d.Elements[n]? ∧
    (∃ element, d.Elements[n]? = some element ∧
      (setAttribute d (.loopCopy n) "id".toList v).Elements[n]?
        = some (element.setAttribute "id".toList v) ∧
      (element.setAttribute "id".toList v).Attributes.lookup "id".toList = some v ∧
      (element.setAttribute "id".toList v).ID = id) ∧
    (∀ e ∈ html.preOrderAll (setAttribute d (.loopCopy n) "id".toList v).Elements, e.ID ≠ v) ∧
    html.FindElementsByID (setAttribute d (.loopCopy n) "id".toList v) v = none := by
  obtain ⟨element, he, hid, hfound⟩ := html.FindElementsByIDRef_loopCopy d id n href
  have hids : ((html.preOrderAll (setAttribute d (.loopCopy n) "id".toList v).Elements).map
      html.Element.ID) = (html.preOrderAll d.Elements).map html.Element.ID :=
    html.map_ID_preOrderAll_modify _
      (fun e => ⟨e.setAttribute_ID _ _, e.setAttribute_Children _ _⟩) d.Elements n
  have hnone : ∀ e ∈ html.preOrderAll (setAttribute d (.loopCopy n) "id".toList v).Elements,
      e.ID ≠ v := by
    intro e hmem hv
    have h1 : v ∈ (html.preOrderAll (setAttribute d (.loopCopy n) "id".toList v).Elements).map
        html.Element.ID := List.mem_map.2 ⟨e, hmem, hv⟩
    rw [hids] at h1
    obtain ⟨e2, hmem2, hv2⟩ := List.mem_map.1 h1
    exact hfresh e2 hmem2 hv2
  refine ⟨by rw [hfound, he], ⟨element, he, ?_, element.setAttribute_Attributes _ _, ?_⟩,
    hnone, ?_⟩
  · show (d.Elements.modify _ n)[n]? = _
    rw [List.getElem?_modify_eq, he]
    rfl
  · rw [element.setAttribute_ID, hid]
  · unfold html.FindElementsByID
    rw [html.FindElementsByID_loop_eq, List.find?_eq_none]
    intro e hmem
    simpa using hnone e hmem

theorem setAttribute_id_lost_on_top_level_witness :
    html.Parse [] = .ok (sample.emptyPage, none) ∧
    html.FindElementsByID sample.emptyPage [] = sample.emptyPage.Elements[0]? ∧
    html.FindElementsByID
      (setAttribute sample.emptyPage (.loopCopy 0) "id".toList "main".toList) "main".toList
      = none :=
  have h := setAttribute_id_lost_on_top_level sample.emptyPage [] "main".toList 0
    (by rfl) (by decide)
  ⟨by rfl, h.1, h.2.2.2⟩

/-- For a nested element the pointer leads into the document and the identifier is
updated there: in `sample.duplicateIds` the paragraph `y` is found again under its new
identifier `z`. -/
theorem setAttribute_id_nested_example :
    html.FindElementsByIDRef sample.duplicateIds "y".toList = some (.inTree [0, 0]) ∧
    html.FindElementsByID
      (setAttribute sample.duplicateIds (.inTree [0, 0]) "id".toList "z".toList) "z".toList
      = some (.mk "p".toList [("id".toList, "z".toList)] [] [] "z".toList []) := by
  constructor <;> rfl

end js

/-! ## The claim on scripts in a parsed document -/

namespace js

theorem foldl_executeScript {V : Type} (host : Host V) :
    ∀ (scripts : List html.Element) (state : V × html.Document),
    scripts.foldl (executeScript host) state
      = (scripts.filterMap (fun script =>
          let external : Bool :=
            match script.Attributes.lookup "src".toList with
            | some src => decide (src ≠ [])
            | none => false
          if external then none
          else if script.Text ≠ [] then some script.Text
          else none)).foldl (fun state text => host.vmRun state.1 state.2 text) state
  | [], state => rfl
  | script :: scripts, state => by
    rw [List.foldl_cons, foldl_executeScript host scripts, List.filterMap_cons]
    unfold executeScript
    dsimp only
    split_ifs <;> simp_all

/-- The state `Execute` ends in is the one after the setup of the `document` object,
followed by `vm.Run` on each text of `scriptsRun`. -/
theorem Execute_eq_foldl_scriptsRun {V : Type} (host : Host V) (vm : V)
    (doc : html.Document) :
    Execute host vm doc
      = (scriptsRun host doc).foldl (fun state text => host.vmRun state.1 state.2 text)
          (host.vmSetup vm doc, doc) := by
  unfold Execute scriptsRun
  exact foldl_executeScript host _ _

/-- Claim C21: for every input on which `Parse` returns, the tree of the document
holds only `html`, `head` and `body`, so `FindElementsByTagName(doc, "script")` is
empty, and `Execute` on the document passes no script to `vm.Run`: it ends in the state
after the setup of the `document` object, with the document as it was.  The function
`strings.EqualFold` enters through the property that it relates only strings with the
same number of code points. -/
theorem parsed_document_runs_no_script {V : Type} (host : Host V)
    (hfold : ∀ s t, host.EqualFold s t = true → s.length = t.length)
    (htmlContent : GoString) (r : html.Document × Option GoError)
    (h : html.Parse htmlContent = .ok r) (vm : V) :
    (html.preOrderAll r.1.Elements).map html.Element.TagName
      = ["html".toList, "head".toList, "body".toList] ∧
    html.FindElementsByTagName host.EqualFold r.1 "script".toList = [] ∧
    scriptsRun host r.1 = [] ∧
    Execute host vm r.1 = (host.vmSetup vm r.1, r.1) := by
  have hel := html.Parse_elements htmlContent r h
  have htags : (html.preOrderAll r.1.Elements).map html.Element.TagName
      = ["html".toList, "head".toList, "body".toList] := by
    rw [hel]
    rfl
  have hnone : html.FindElementsByTagName host.EqualFold r.1 "script".toList = [] := by
    unfold html.FindElementsByTagName
    rw [html.foldl_findElementsByTagNameRecursive, List.nil_append, List.filter_eq_nil_iff]
    intro e he hmatch
    have hlen := hfold _ _ hmatch
    have htag : e.TagName ∈ (html.preOrderAll r.1.Elements).map html.Element.TagName :=
      List.mem_map_of_mem _ he
    rw [htags] at htag
    simp only [List.mem_cons, List.mem_singleton, List.not_mem_nil, or_false] at htag
    rcases htag with ht | ht | ht <;> rw [ht] at hlen <;> revert hlen <;> decide
  have hruns : scriptsRun host r.1 = [] := by
    unfold scriptsRun
    rw [hnone]
    rfl
  refine ⟨htags, hnone, hruns, ?_⟩
  rw [Execute_eq_foldl_scriptsRun, hruns]
  rfl

/-- Claim C21 on the page `<html><body><script>alert(1)</script></body></html>` with
the host `sample.plainHost`: no script element is found and none is run. -/
theorem parsed_document_runs_no_script_witness :
    html.Parse "<html><body><script>alert(1)</script></body></html>".toList
      = .ok (sample.scriptPage, none) ∧
    html.FindElementsByTagName sample.plainHost.EqualFold sample.scriptPage "script".toList
      = [] ∧
    scriptsRun sample.plainHost sample.scriptPage = [] ∧
    Execute sample.plainHost () sample.scriptPage = ((), sample.scriptPage) :=
  have h := parsed_document_runs_no_script sample.plainHost
    (fun s t hst => by
      have hmap : s.map Char.toLower = t.map Char.toLower := by
        simpa [sample.plainHost] using hst
      simpa using congrArg List.length hmap)
    "<html><body><script>alert(1)</script></body></html>".toList
    (sample.scriptPage, none) (by rfl) ()
  ⟨by rfl, h.2.1, h.2.2.1, h.2.2.2⟩

end js

/-! ## The claim on the closed form of the layout height -/

namespace fmt

theorem some_of_ite_eq_some {α : Type} {p : Prop} [Decidable p] {a b : α}
    (h : (if p then some a else none) = some b) : p ∧ a = b := by
  by_cases hp : p
  · rw [if_pos hp] at h
    exact ⟨hp, Option.some.inj h⟩
  · rw [if_neg hp] at h
    cases h

theorem Sscanf_d_inRange (str : GoString) (v : Int) (h : Sscanf_d str = some v) :
    -(2 ^ 63) ≤ v ∧ v < 2 ^ 63 := by
  unfold Sscanf_d at h
  split at h
  · cases h
  · dsimp only at h
    split at h
    · cases h
    · obtain ⟨hr, hv⟩ := some_of_ite_eq_some h
      rw [← hv]
      exact hr

end fmt

namespace renderer

namespace RenderedElement

@[simp] theorem Height_setWidth (r : RenderedElement) (v : Int) :
    (r.setWidth v).Height = r.Height := by cases r; rfl

@[simp] theorem Height_setColor (r : RenderedElement) (v : GoString) :
    (r.setColor v).Height = r.Height := by cases r; rfl

@[simp] theorem Height_setBackground (r : RenderedElement) (v : GoString) :
    (r.setBackground v).Height = r.Height := by cases r; rfl

end RenderedElement

theorem wrapInt_modEq (a : Int) : wrapInt a ≡ a [ZMOD 2 ^ 64] := by
  unfold wrapInt
  have h := (Int.mod_modEq (a + 2 ^ 63) (2 ^ 64)).sub_right (2 ^ 63)
  rwa [add_sub_cancel_right] at h

theorem wrapInt_congr {a b : Int} (h : a ≡ b [ZMOD 2 ^ 64]) : wrapInt a = wrapInt b := by
  unfold wrapInt
  have h2 : (a + 2 ^ 63) % 2 ^ 64 = (b + 2 ^ 63) % 2 ^ 64 := h.add_right (2 ^ 63)
  rw [h2]

theorem modEq_of_wrapInt_eq {a b : Int} (h : wrapInt a = wrapInt b) :
    a ≡ b [ZMOD 2 ^ 64] :=
  ((wrapInt_modEq a).symm.trans (h ▸ Int.ModEq.refl _)).trans (wrapInt_modEq b)

theorem applyStyle_Height_congr (style : GoString) (e1 e2 : RenderedElement)
    (h : e1.Height = e2.Height) :
    (applyStyle e1 style).Height = (applyStyle e2 style).Height := by
  unfold applyStyle
  split
  · dsimp only
    split_ifs <;> (try split) <;> simp [h]
  · exact h

theorem applyStyle_Height_inRange (style : GoString) (e : RenderedElement)
    (h : -(2 ^ 63) ≤ e.Height ∧ e.Height < 2 ^ 63) :
    -(2 ^ 63) ≤ (applyStyle e style).Height ∧ (applyStyle e style).Height < 2 ^ 63 := by
  unfold applyStyle
  split
  · dsimp only
    split_ifs
    · simpa using h
    · simpa using h
    · split <;> simpa using h
    · simpa using h
    · split
      · rename_i height hs
        simpa using fmt.Sscanf_d_inRange _ _ hs
      · exact h
    · exact h
    · exact h
  · exact h

theorem applyStyles_Height (styleStr : GoString) (e1 e2 : RenderedElement)
    (h : e1.Height = e2.Height) (hr : -(2 ^ 63) ≤ e1.Height ∧ e1.Height < 2 ^ 63) :
    (applyStyles e1 styleStr).Height = (applyStyles e2 styleStr).Height ∧
    -(2 ^ 63) ≤ (applyStyles e1 styleStr).Height ∧
    (applyStyles e1 styleStr).Height < 2 ^ 63 := by
  unfold applyStyles
  generalize strings.Split styleStr ';' = styles
  induction styles generalizing e1 e2 with
  | nil => exact ⟨h, hr⟩
  | cons style styles ih =>
    rw [List.foldl_cons, List.foldl_cons]
    exact ih _ _ (applyStyle_Height_congr style e1 e2 h)
      (applyStyle_Height_inRange style e1 hr)

theorem styledBox_Height (e : html.Element) (x y : Int) :
    (styledBox e x y).Height = styledHeight e ∧
    -(2 ^ 63) ≤ styledHeight e ∧ styledHeight e < 2 ^ 63 := by
  unfold styledHeight styledBox
  dsimp only
  have h20 : -(2 ^ 63 : Int) ≤ 20 ∧ (20 : Int) < 2 ^ 63 := by decide
  split
  · have h1 := applyStyles_Height ‹GoString›
      (RenderedElement.mk e.TagName e.Text x y 100 20 "#000000".toList "#FFFFFF".toList [])
      (RenderedElement.mk e.TagName e.Text 0 0 100 20 "#000000".toList "#FFFFFF".toList [])
      rfl h20
    exact ⟨h1.1, h1.1 ▸ h1.2⟩
  · exact ⟨rfl, h20⟩

theorem renderChildren_eq_nil (cs : List html.Element) (childX currentY height : Int)
    (h : renderChildren cs childX currentY height = []) : cs = [] := by
  cases cs with
  | nil => rfl
  | cons child rest =>
    rw [renderChildren] at h
    cases h

theorem preOrderAll_cons (e : html.Element) (es : List html.Element) :
    html.preOrderAll (e :: es) = html.preOrder e ++ html.preOrderAll es := by
  rw [html.preOrderAll]

mutual
theorem renderElement_Height_sum : ∀ (e : html.Element) (x y : Int),
    (renderElement e x y).Height = wrapInt (((html.preOrder e).map styledHeight).sum)
  | .mk t a c txt i k, x, y => by
    have hs := styledBox_Height (.mk t a c txt i k) x y
    rw [html.preOrder_eq, List.map_cons, List.sum_cons, renderElement_eq]
    simp only [html.Element.Children]
    cases hl : (renderChildren c (wrapInt (x + 10)) y
        (styledBox (.mk t a c txt i k) x y).Height).getLast? with
    | none =>
      have hc : c = [] := renderChildren_eq_nil _ _ _ _ (List.getLast?_eq_none_iff.mp hl)
      subst hc
      simp only [RenderedElement.Height_setChildren, hs.1]
      rw [html.preOrderAll, List.map_nil, List.sum_nil, add_zero,
        wrapInt_of_inRange _ hs.2.1 hs.2.2]
    | some last =>
      have hb := renderChildren_last_sum c _ _ _ last hl
      simp only [RenderedElement.Height_setHeight]
      apply wrapInt_congr
      have h1 := modEq_of_wrapInt_eq hb
      rw [hs.1] at h1
      have h3 : wrapInt (last.Y - y) + last.Height ≡ last.Y + last.Height - y
          [ZMOD 2 ^ 64] := by
        have h2 := (wrapInt_modEq (last.Y - y)).add_right last.Height
        rwa [show last.Y - y + last.Height = last.Y + last.Height - y from by ring] at h2
      have h4 := h1.sub_right y
      rw [show y + styledHeight (.mk t a c txt i k)
            + ((html.preOrderAll c).map styledHeight).sum - y
          = styledHeight (.mk t a c txt i k) + ((html.preOrderAll c).map styledHeight).sum
          from by ring] at h4
      exact h3.trans h4
theorem renderChildren_last_sum : ∀ (cs : List html.Element)
    (childX currentY height : Int) (last : RenderedElement),
    (renderChildren cs childX currentY height).getLast? = some last →
    wrapInt (last.Y + last.Height)
      = wrapInt (currentY + height + ((html.preOrderAll cs).map styledHeight).sum)
  | [], childX, currentY, height, last, h => by
    rw [renderChildren] at h
    cases h
  | [child], childX, currentY, height, last, h => by
    rw [renderChildren, renderChildren, List.getLast?_singleton] at h
    cases h
    rw [(renderElement_shape child _ _).1, renderElement_Height_sum child,
      preOrderAll_cons, html.preOrderAll, List.append_nil]
    exact wrapInt_congr ((wrapInt_modEq _).add (wrapInt_modEq _))
  | child :: child2 :: rest, childX, currentY, height, last, h => by
    rw [renderChildren] at h
    obtain ⟨b, l, hbl⟩ : ∃ b l, renderChildren (child2 :: rest) childX
        (wrapInt (currentY
          + (renderElement child childX (wrapInt (currentY + height))).Height)) height
        = b :: l := by
      rw [renderChildren]
      exact ⟨_, _, rfl⟩
    rw [hbl, List.getLast?_cons_cons, ← hbl] at h
    rw [renderChildren_last_sum (child2 :: rest) childX _ height last h,
      renderElement_Height_sum child, preOrderAll_cons child, List.map_append,
      List.sum_append]
    apply wrapInt_congr
    have h1 : wrapInt (currentY + wrapInt (((html.preOrder child).map styledHeight).sum))
        ≡ currentY + ((html.preOrder child).map styledHeight).sum [ZMOD 2 ^ 64] :=
      (wrapInt_modEq _).trans ((wrapInt_modEq _).add_left currentY)
    have h2 := (h1.add_right height).add_right
      (((html.preOrderAll (child2 :: rest)).map styledHeight).sum)
    rwa [show currentY + ((html.preOrder child).map styledHeight).sum + height
          + ((html.preOrderAll (child2 :: rest)).map styledHeight).sum
        = currentY + height + (((html.preOrder child).map styledHeight).sum
          + ((html.preOrderAll (child2 :: rest)).map styledHeight).sum) from by ring] at h2
end

theorem applyStyle_Height_cases (style : GoString) (e : RenderedElement) :
    (applyStyle e style).Height = e.Height ∨
    ∃ name value, strings.Split style ':' = [name, value] ∧
      strings.TrimSpace name = "height".toList ∧
      strings.HasSuffix (strings.TrimSpace value) "px".toList = true ∧
      fmt.Sscanf_d (strings.TrimSuffix (strings.TrimSpace value) "px".toList)
        = some (applyStyle e style).Height := by
  unfold applyStyle
  split
  · rename_i part0 part1 hsplit
    dsimp only
    split_ifs with h1 h2 h3 h4 h5 h6
    · exact Or.inl (by simp)
    · exact Or.inl (by simp)
    · split <;> exact Or.inl (by simp)
    · exact Or.inl rfl
    · split
      · rename_i height hs
        exact Or.inr ⟨part0, part1, hsplit, h5, h6, by simpa using hs⟩
      · exact Or.inl rfl
    · exact Or.inl rfl
    · exact Or.inl rfl
  · exact Or.inl rfl

theorem applyStyles_Height_cases (styleStr : GoString) (e : RenderedElement) :
    (applyStyles e styleStr).Height = e.Height ∨
    ∃ declaration name value, declaration ∈ strings.Split styleStr ';' ∧
      strings.Split declaration ':' = [name, value] ∧
      strings.TrimSpace name = "height".toList ∧
      strings.HasSuffix (strings.TrimSpace value) "px".toList = true ∧
      fmt.Sscanf_d (strings.TrimSuffix (strings.TrimSpace value) "px".toList)
        = some (applyStyles e styleStr).Height := by
  unfold applyStyles
  generalize strings.Split styleStr ';' = styles
  induction styles using List.reverseRecOn with
  | nil => exact Or.inl rfl
  | append_singleton styles style ih =>
    rw [List.foldl_append, List.foldl_cons, List.foldl_nil]
    rcases applyStyle_Height_cases style (styles.foldl applyStyle e) with h | h
    · rw [h]
      rcases ih with ih | ⟨declaration, name, value, hmem, hrest⟩
      · exact Or.inl ih
      · exact Or.inr ⟨declaration, name, value, List.mem_append_left _ hmem, hrest⟩
    · obtain ⟨name, value, hrest⟩ := h
      exact Or.inr ⟨style, name, value, by simp, hrest⟩

theorem styledHeight_cases (n : html.Element) :
    styledHeight n = 20 ∨
    ∃ styleStr declaration name value,
      n.Attributes.lookup "style".toList = some styleStr ∧
      declaration ∈ strings.Split styleStr ';' ∧
      strings.Split declaration ':' = [name, value] ∧
      strings.TrimSpace name = "height".toList ∧
      strings.HasSuffix (strings.TrimSpace value) "px".toList = true ∧
      fmt.Sscanf_d (strings.TrimSuffix (strings.TrimSpace value) "px".toList)
        = some (styledHeight n) := by
  unfold styledHeight styledBox
  dsimp only
  split
  · rename_i styleStr hlook
    rcases applyStyles_Height_cases styleStr
      (RenderedElement.mk n.TagName n.Text 0 0 100 20 "#000000".toList "#FFFFFF".toList [])
      with h | ⟨declaration, name, value, hrest⟩
    · exact Or.inl h
    · exact Or.inr ⟨styleStr, declaration, name, value, hlook, hrest⟩
  · exact Or.inl rfl

theorem styledHeight_default (n : html.Element)
    (h : n.Attributes.lookup "style".toList = none) : styledHeight n = 20 := by
  unfold styledHeight
  rw [styledBox_default n 0 0 h]
  rfl

theorem sum_styledHeight_default (ns : List html.Element)
    (h : ∀ n ∈ ns, n.Attributes.lookup "style".toList = none) :
    (ns.map styledHeight).sum = 20 * (ns.length : Int) := by
  induction ns with
  | nil => rfl
  | cons n ns ih =>
    rw [List.map_cons, List.sum_cons, ih (fun m hm => h m (List.mem_cons_of_mem _ hm)),
      styledHeight_default n (h n (List.mem_cons_self _ _)), List.length_cons]
    push_cast
    ring

/-- Claim C22, amended: for every element tree laid out at any position, the final
`Height` of the box is the sum, over the nodes of the subtree in document order (the
element included), of each node's own styled height, the sum taken as Go takes it on
`int`, wrapping around at 64 bits; when the sum does not leave the 64-bit range the
`Height` is that integer.  The styled
height of a node does not depend on the position and is 20 unless a declaration of its
`style` attribute sets `height` to a number followed by `px`.  With no style attributes
the height is 20 times the number of nodes of the subtree (as an integer when that
product is below `2^63`), and the root box of every parsed document has `Height` 60
with `head` at `Y` 20 and `body` at `Y` 40. -/
theorem height_closed_form (e : html.Element) (x y : Int) :
    (renderElement e x y).Height = wrapInt (((html.preOrder e).map styledHeight).sum) ∧
    (-(2 ^ 63) ≤ ((html.preOrder e).map styledHeight).sum ∧
        ((html.preOrder e).map styledHeight).sum < 2 ^ 63 →
      (renderElement e x y).Height = ((html.preOrder e).map styledHeight).sum) ∧
    (∀ n x2 y2, (styledBox n x2 y2).Height = styledHeight n) ∧
    (∀ n, styledHeight n = 20 ∨
      ∃ styleStr declaration name value,
        n.Attributes.lookup "style".toList = some styleStr ∧
        declaration ∈ strings.Split styleStr ';' ∧
        strings.Split declaration ':' = [name, value] ∧
        strings.TrimSpace name = "height".toList ∧
        strings.HasSuffix (strings.TrimSpace value) "px".toList = true ∧
        fmt.Sscanf_d (strings.TrimSuffix (strings.TrimSpace value) "px".toList)
          = some (styledHeight n)) ∧
    ((∀ n ∈ html.preOrder e, n.Attributes.lookup "style".toList = none) →
      (renderElement e x y).Height = wrapInt (20 * ((html.preOrder e).length : Int)) ∧
      (20 * ((html.preOrder e).length : Int) < 2 ^ 63 →
        (renderElement e x y).Height = 20 * ((html.preOrder e).length : Int))) ∧
    (∀ htmlContent r, html.Parse htmlContent = .ok r →
      (Render r.1).Elements.map (fun box =>
          (box.TagName, box.Y, box.Height,
            box.Children.map (fun c => (c.TagName, c.Y, c.Height))))
        = [("html".toList, 0, 60, [("head".toList, 20, 20), ("body".toList, 40, 20)])]) := by
  have hsum := renderElement_Height_sum e x y
  refine ⟨hsum, ?_, fun n x2 y2 => (styledBox_Height n x2 y2).1, styledHeight_cases, ?_, ?_⟩
  · rintro ⟨h0, h1⟩
    rw [hsum, wrapInt_of_inRange _ h0 h1]
  · intro hnone
    rw [hsum, sum_styledHeight_default _ hnone]
    refine ⟨rfl, fun hlt => wrapInt_of_inRange _ ?_ hlt⟩
    have : (0 : Int) ≤ ((html.preOrder e).length : Int) := Int.natCast_nonneg _
    omega
  · intro htmlContent r hp
    unfold Render
    rw [html.Parse_elements htmlContent r hp]
    rfl

/-- Claim C22, amended, on `sample.styledDiv` at (0, 0), whose four nodes have the styled
heights 30, 20, 20 and 20: the height is their sum, 90; on its first child, an unstyled
`p` with one child: 20 times 2; and on the document parsed from the empty input. -/
theorem height_closed_form_witness :
    (renderElement sample.styledDiv 0 0).Height
      = ((html.preOrder sample.styledDiv).map styledHeight).sum ∧
    (html.preOrder sample.styledDiv).map styledHeight = [30, 20, 20, 20] ∧
    (renderElement sample.styledDiv 0 0).Height = 90 ∧
    (renderElement (.mk "p".toList [] [.mk "b".toList [] [] [] [] []] [] [] []) 10 30).Height
      = 20 * 2 ∧
    (Render sample.emptyPage).Elements.map (fun box =>
        (box.TagName, box.Y, box.Height,
          box.Children.map (fun c => (c.TagName, c.Y, c.Height))))
      = [("html".toList, 0, 60, [("head".toList, 20, 20), ("body".toList, 40, 20)])] :=
  ⟨(height_closed_form sample.styledDiv 0 0).2.1 (by decide),
   by decide,
   by decide,
   ((height_closed_form (.mk "p".toList [] [.mk "b".toList [] [] [] [] []] [] [] []) 10 30
      ).2.2.2.2.1 (by decide)).2 (by decide),
   (height_closed_form sample.styledDiv 0 0).2.2.2.2.2 [] (sample.emptyPage, none) (by rfl)⟩

/-- Claim C22 as stated fails at the limit of `int`: the styled heights of the three
nodes of `sample.tallDiv` add up to `2^63 + 39`, and the height of its box, laid out at
(0, 0), is the value Go's `int` holds for that sum, `-2^63 + 39`, not the sum. -/
theorem height_differs_from_sum_at_int_limit :
    (html.preOrder sample.tallDiv).map styledHeight = [9223372036854775807, 20, 20] ∧
    ((html.preOrder sample.tallDiv).map styledHeight).sum = 9223372036854775847 ∧
    (renderElement sample.tallDiv 0 0).Height = -9223372036854775769 ∧
    (renderElement sample.tallDiv 0 0).Height
      ≠ ((html.preOrder sample.tallDiv).map styledHeight).sum := by
  refine ⟨?_, ?_, ?_, ?_⟩ <;> decide

end renderer

end GluGlu
